import Mathlib

/-!
Verification of the loading-and-linking subsystem of the factRuEval-2016
standard-markup reader (scripts/dialent/standard.py, class Standard).

The module under study parses four positionally-coupled annotation files
(tokens, spans, objects, coref) plus raw text into an in-memory document
model, and derives typed token sets with an organization-nesting pass.

The embedding below translates the Python code into executable Lean
definitions.  Python strings are Lean Strings; file contents are modelled
as Option String (None = the file cannot be opened); exceptions are
modelled with Except String; object attributes that may be unset are
Option fields of a state record.  The collaborator classes of
dialent.objects and dialent.config are not part of the analysed source
tree; their definitions below are modelled from the specification and are
marked as such in their doc comments.
-/

namespace Dialent

/-! ### Python string primitives -/

/-- Split a character list on a single separator character, keeping empty
chunks, as Python str.split(sep) does for a one-character separator. -/
def splitOnChar (sep : Char) (s : List Char) : List (List Char) :=
  s.foldr
    (fun c r =>
      if c = sep then [] :: r
      else
        match r with
        | [] => [[c]]
        | g :: gs => (c :: g) :: gs)
    [[]]

/-- Characters stripped by the Python calls str.strip(' \t\n\r'). -/
def isPyWs (c : Char) : Bool :=
  c = ' ' || c = '\t' || c = '\n' || c = '\r'

/-- Python str.strip(' \t\n\r'): drop the whitespace characters from both
ends of the string. -/
def pyStrip (s : String) : String :=
  ⟨((s.data.dropWhile isPyWs).reverse.dropWhile isPyWs).reverse⟩

/-- Value of a nonempty all-digit character list, none otherwise. -/
def parseDigits (cs : List Char) : Option Nat :=
  if cs ≠ [] ∧ cs.all Char.isDigit then
    some (cs.foldl (fun n c => n * 10 + (c.toNat - '0'.toNat)) 0)
  else none

/-- Python int(s): optional surrounding whitespace, optional sign, digits;
anything else raises ValueError, modelled as none. -/
def pyInt (s : String) : Option Int :=
  match (pyStrip s).data with
  | '-' :: rest => (parseDigits rest).map (fun n => -(n : Int))
  | '+' :: rest => (parseDigits rest).map (fun n => (n : Int))
  | cs => (parseDigits cs).map (fun n => (n : Int))

/-- Auxiliary for fileLines: accumulate the current line (reversed) while
scanning the remaining characters. -/
def fileLinesAux : List Char → List Char → List (List Char)
  | acc, [] => if acc = [] then [] else [acc.reverse]
  | acc, c :: cs =>
      if c = '\n' then (acc.reverse ++ ['\n']) :: fileLinesAux [] cs
      else fileLinesAux (c :: acc) cs

/-- Python text-file iteration: each yielded line keeps its trailing
newline; a final chunk without a newline is yielded only if nonempty.  In
particular no yielded line is ever the empty string. -/
def fileLines (s : String) : List String :=
  (fileLinesAux [] s.data).map (fun l => ⟨l⟩)

/-- Remove every newline character, as Python str.replace with empty
replacement does. -/
def removeNewlines (s : String) : String :=
  ⟨s.data.filter (fun c => ¬ c = '\n')⟩

/-- Python ' '.join of a list of strings. -/
def joinSpace (ws : List String) : String :=
  ⟨List.intercalate [' '] (ws.map String.data)⟩

theorem fileLinesAux_ne_nil (cs : List Char) :
    ∀ acc l, l ∈ fileLinesAux acc cs → l ≠ [] := by
  induction cs with
  | nil =>
      intro acc l hl
      simp only [fileLinesAux] at hl
      by_cases h : acc = []
      · simp [h] at hl
      · simp [h] at hl
        subst hl
        simpa using h
  | cons c cs ih =>
      intro acc l hl
      simp only [fileLinesAux] at hl
      by_cases h : c = '\n'
      · simp [h] at hl
        rcases hl with hl | hl
        · subst hl; simp
        · exact ih [] l hl
      · simp [h] at hl
        exact ih (c :: acc) l hl

/-- No line produced by file iteration is empty. -/
theorem fileLines_ne_empty (s : String) :
    ∀ l ∈ fileLines s, l ≠ "" := by
  intro l hl
  simp only [fileLines, List.mem_map] at hl
  obtain ⟨cs, hcs, rfl⟩ := hl
  have := fileLinesAux_ne_nil s.data [] cs hcs
  intro h
  apply this
  have : (⟨cs⟩ : String).data = ("" : String).data := by rw [h]
  simpa using this

/-! ### External configuration -/

/-- Modelled from the spec: dialent.config.Config, the external
configuration provider (outside src/), exposing the delimiter and
separator constants used by the loaders.  The delimiters are
single characters in the export format, so they are modelled as Char. -/
structure Config where
  DEFAULT_DELIMITER : Char
  QUOTECHAR : Char
  TOKEN_LINE_LENGTH : Nat
  SPAN_FILE_SEPARATOR : Char
  COMMENT_SEPARATOR : String
deriving Repr, DecidableEq

/-! ### Token -/

/-- Modelled from the spec: dialent.objects.Token (outside src/): a
minimal lexical unit with a unique id, character start offset, character
length and literal text.  The mutable prev/next neighbor references set
during loadTokens are represented, per the spec's design note, as
index-based adjacency: the index of the neighbor in the sorted token
list. -/
structure Token where
  id : Int
  start : Int
  length : Int
  text : String
  prev : Option Nat := none
  next : Option Nat := none
deriving Repr, DecidableEq

/-- Modelled from the spec: the Token constructor Token(*line) converts
the id, start and length fields with int() (which may raise) and keeps
the text verbatim; it requires exactly the four record fields. -/
def Token.ofFields : List String → Except String Token
  | [i, s, l, t] =>
      match pyInt i, pyInt s, pyInt l with
      | some vi, some vs, some vl =>
          .ok { id := vi, start := vs, length := vl, text := t }
      | _, _, _ => .error "ValueError: invalid literal for int()"
  | _ => .error "TypeError: Token() takes four record fields"

/-- Strip one trailing newline (and a carriage return before it) from a
raw file line, as the csv reader does before splitting the record. -/
def stripLineEnd (cs : List Char) : List Char :=
  match cs.reverse with
  | '\n' :: '\r' :: r => r.reverse
  | '\n' :: r => r.reverse
  | _ => cs

/-- The record the Python csv reader yields for one raw line: a blank
line yields the empty record; otherwise the line (line end removed) is
split on the delimiter.  Quoting (Config.QUOTECHAR) is not exercised by
the token files and is not modelled. -/
def csvRecord (delim : Char) (line : String) : List String :=
  let core := stripLineEnd line.data
  if core = [] then []
  else (splitOnChar delim core).map (fun l => ⟨l⟩)

/-- Processing of one enumerated line of the .tokens file inside
Standard.loadTokens: skip empty records, reject records of the wrong
length with the error message of standard.py line 57, otherwise build a
Token. -/
def parseTokenLine (cfg : Config) (filename : String) (index : Nat)
    (line : String) : Except String (Option Token) :=
  let r := csvRecord cfg.DEFAULT_DELIMITER line
  if r.length = 0 then .ok none
  else if r.length ≠ cfg.TOKEN_LINE_LENGTH then
    .error ("Wrong length in line " ++ toString index ++ " of file " ++ filename)
  else (Token.ofFields r).map some

/-- The record-reading loop of Standard.loadTokens: parse the enumerated
lines in order, appending each parsed token to self.tokens; a parse
failure stops the loop, leaving the tokens read so far (the partially
populated self.tokens) together with the raised error. -/
def readTokenRecords (cfg : Config) (filename : String) :
    Nat → List String → List Token × Option String
  | _, [] => ([], none)
  | i, l :: ls =>
      match parseTokenLine cfg filename i l with
      | .error e => ([], some e)
      | .ok none => readTokenRecords cfg filename (i + 1) ls
      | .ok (some t) =>
          let r := readTokenRecords cfg filename (i + 1) ls
          (t :: r.1, r.2)

/-- Python sorted(self.tokens, key=lambda x: x.start): a stable sort by
start offset.  Insertion sort with the non-strict key comparison is
stable, and any two stable sorts by the same key agree, so this is
observationally the same function as Python's sorted. -/
def sortTokens (ts : List Token) : List Token :=
  List.insertionSort (fun a b => a.start ≤ b.start) ts

/-- The neighbor-linking loop of Standard.loadTokens lines 69-73: token
at position i of the sorted list receives its left neighbor as prev
(unless it is first) and its right neighbor as next (unless it is last),
with neighbors represented as indices into the sorted list. -/
def setLinks (ts : List Token) : List Token :=
  List.ofFn (fun i : Fin ts.length =>
    { ts.get i with
      prev := if (i : Nat) = 0 then none else some ((i : Nat) - 1),
      next := if (i : Nat) = ts.length - 1 then none else some ((i : Nat) + 1) })

/-- An id-keyed dictionary represented as an association list. -/
def mkDict {α : Type} (key : α → Int) (xs : List α) : List (Int × α) :=
  xs.map (fun x => (key x, x))

/-- Python dict lookup d[k]: the binding of the last writer for the key;
none models the KeyError. -/
def dictLookup {α : Type} (d : List (Int × α)) (k : Int) : Option α :=
  (d.reverse.find? (fun p => p.1 = k)).map (fun p => p.2)

/-- The whole body of Standard.loadTokens on an opened file's content:
read the records, and on success build the id dictionary, sort the
tokens by start offset and thread the neighbor links.  On a parse error
the partially read (unsorted, unlinked) token list is reported together
with the error, the dictionary not yet built.  (In the Python code the
dictionary is built from the file-ordered list before sorting, but it
holds the very objects that the linking loop then mutates; with the
format's unique-id contract the mapping below is the same.) -/
def loadTokensContent (cfg : Config) (filename : String) (content : String) :
    (List Token × Option (List (Int × Token))) × Option String :=
  let r := readTokenRecords cfg filename 0 (fileLines content)
  match r.2 with
  | some e => ((r.1, none), some e)
  | none =>
      let toks := setLinks (sortTokens r.1)
      ((toks, some (mkDict Token.id toks)), none)

/-! ### Span -/

/-- Modelled from the spec: dialent.objects.Span (outside src/): a
geometric+typed annotation over a contiguous token run, whose
constructor receives the six left-section fields (id, tag, start
position, char count, start token, token count), converting the numeric
ones with int().  The resolved token list and the reconstructed text are
assigned by loadSpans after construction. -/
structure Span where
  id : Int
  tag : String
  start : Int
  nchars : Int
  token_start : Int
  ntokens : Int
  tokens : List Token := []
  text : String := ""
deriving Repr, DecidableEq

/-- Modelled from the spec: the Span constructor Span(*filtered_left)
takes exactly the six declared fields (extra fields would be a TypeError)
and may raise from the int() conversions. -/
def Span.ofFields : List String → Except String Span
  | [i, tag, s, nc, ts, nt] =>
      match pyInt i, pyInt s, pyInt nc, pyInt ts, pyInt nt with
      | some vi, some vs, some vnc, some vts, some vnt =>
          .ok { id := vi, tag := tag, start := vs, nchars := vnc,
                token_start := vts, ntokens := vnt }
      | _, _, _, _, _ => .error "ValueError: invalid literal for int()"
  | _ => .error "TypeError: Span() takes six record fields"

/-- The per-id token resolution [self._token_dict[x] for x in token_ids]
of loadSpans line 125: int() conversion of each id field, then the
dictionary lookup; a failed conversion raises ValueError and a missing
id raises KeyError.  The dictionary is an Option because self._token_dict
is an attribute that exists only if loadTokens completed. -/
def resolveTokenIds (tdict : Option (List (Int × Token))) :
    List String → Except String (List Token)
  | [] => .ok []
  | s :: ss =>
      match pyInt s with
      | none => .error "ValueError: invalid literal for int()"
      | some i =>
          match tdict with
          | none => .error "AttributeError: _token_dict"
          | some d =>
              match dictLookup d i with
              | none => .error ("KeyError: " ++ toString i)
              | some t => (resolveTokenIds tdict ss).map (fun ts => t :: ts)

/-- The section-splitting comprehension of loadSpans lines 104-106 and
115-117: split a section on the delimiter and keep the nonempty
fields. -/
def filteredFields (delim : Char) (cs : List Char) : List String :=
  ((splitOnChar delim cs).filter (fun i => i.length > 0)).map
    (fun l => (⟨l⟩ : String))

/-- Processing of one enumerated line of the .spans file inside
Standard.loadSpans lines 90-127: skip length-zero lines, split on the
span file separator, validate the section counts, build the Span, then
resolve its token ids and reconstruct its text. -/
def parseSpanLine (cfg : Config) (tdict : Option (List (Int × Token)))
    (filename : String) (index : Nat) (line : String) :
    Except String (Option Span) :=
  if line.length = 0 then .ok none
  else
    match splitOnChar cfg.SPAN_FILE_SEPARATOR line.data with
    | [left, right] =>
        let filtered_left := filteredFields cfg.DEFAULT_DELIMITER left
        if filtered_left.length < 6 then
          .error ("Missing left parts in line " ++ toString index ++
            " of file " ++ filename)
        else
          match Span.ofFields filtered_left with
          | .error e => .error e
          | .ok new_span =>
              let filtered_right := filteredFields cfg.DEFAULT_DELIMITER right
              if (filtered_right.length : Int) ≠ 2 * new_span.ntokens then
                .error ("Missing right parts in line " ++ toString index ++
                  " of file " ++ filename)
              else
                match resolveTokenIds tdict
                    (filtered_right.take new_span.ntokens.toNat) with
                | .error e => .error e
                | .ok toks =>
                    .ok (some { new_span with
                      tokens := toks,
                      text := removeNewlines
                        (joinSpace (filtered_right.drop new_span.ntokens.toNat)) })
    | _ =>
        .error ("Expected symbol \"" ++ String.mk [cfg.SPAN_FILE_SEPARATOR] ++
          "\" missing in line " ++ toString index ++ " of file " ++ filename)

/-- The record-reading loop of Standard.loadSpans: process the
enumerated lines in order, appending each span to self.spans; a failure
stops the loop, leaving the spans read so far together with the raised
error. -/
def readSpanRecords (cfg : Config) (tdict : Option (List (Int × Token)))
    (filename : String) : Nat → List String → List Span × Option String
  | _, [] => ([], none)
  | i, l :: ls =>
      match parseSpanLine cfg tdict filename i l with
      | .error e => ([], some e)
      | .ok none => readSpanRecords cfg tdict filename (i + 1) ls
      | .ok (some sp) =>
          let r := readSpanRecords cfg tdict filename (i + 1) ls
          (sp :: r.1, r.2)

/-- The whole body of Standard.loadSpans on an opened file's content:
read the records and on success build the id dictionary. -/
def loadSpansContent (cfg : Config) (tdict : Option (List (Int × Token)))
    (filename : String) (content : String) :
    (List Span × Option (List (Int × Span))) × Option String :=
  let r := readSpanRecords cfg tdict filename 0 (fileLines content)
  match r.2 with
  | some e => ((r.1, none), some e)
  | none => ((r.1, some (mkDict Span.id r.1)), none)

/-! ### Mention -/

/-- Modelled from the spec: dialent.objects.Mention (outside src/): a
typed semantic annotation with a unique id, a semantic tag and the
ordered spans resolved from the given span ids. -/
structure Mention where
  id : Int
  tag : String
  spans : List Span
deriving Repr, DecidableEq

/-- Modelled from the spec: the Mention constructor resolves every span
id against the span dictionary; a missing id is a lookup failure
(KeyError), and a missing dictionary attribute is an AttributeError. -/
def resolveSpanIds (sdict : Option (List (Int × Span))) :
    List Int → Except String (List Span)
  | [] => .ok []
  | i :: is =>
      match sdict with
      | none => .error "AttributeError: _span_dict"
      | some d =>
          match dictLookup d i with
          | none => .error ("KeyError: " ++ toString i)
          | some sp => (resolveSpanIds sdict is).map (fun ss => sp :: ss)

/-- Python [int(x) for x in l]: all-or-nothing integer conversion. -/
def pyIntList : List String → Option (List Int)
  | [] => some []
  | s :: ss => do
      let i ← pyInt s
      let r ← pyIntList ss
      pure (i :: r)

/-- Processing of one enumerated record of the .objects file inside
Standard.loadMentions lines 143-163: truncate at the comment separator
field, skip empty records, require at least three fields, convert the
mention and span ids (wrapping a conversion failure in the invalid-id
message), and resolve the span ids. -/
def parseMentionLine (cfg : Config) (sdict : Option (List (Int × Span)))
    (filename : String) (index : Nat) (line : String) :
    Except String (Option Mention) :=
  let r0 := csvRecord ' ' line
  let r := if cfg.COMMENT_SEPARATOR ∈ r0 then
      r0.takeWhile (fun f => f ≠ cfg.COMMENT_SEPARATOR)
    else r0
  if r.length = 0 then .ok none
  else if r.length ≤ 2 then
    .error ("Missing spans in object description: line " ++ toString index ++
      " of file " ++ filename)
  else
    match pyInt (r.get? 0).get!, pyIntList (r.drop 2) with
    | some mention_id, some span_indices =>
        match resolveSpanIds sdict span_indices with
        | .error e => .error e
        | .ok spans =>
            .ok (some { id := mention_id, tag := (r.get? 1).get!, spans := spans })
    | _, _ =>
        .error ("Invalid mention or span id: line " ++ toString index ++
          " of file " ++ filename)

/-- The record-reading loop of Standard.loadMentions. -/
def readMentionRecords (cfg : Config) (sdict : Option (List (Int × Span)))
    (filename : String) : Nat → List String → List Mention × Option String
  | _, [] => ([], none)
  | i, l :: ls =>
      match parseMentionLine cfg sdict filename i l with
      | .error e => ([], some e)
      | .ok none => readMentionRecords cfg sdict filename (i + 1) ls
      | .ok (some m) =>
          let r := readMentionRecords cfg sdict filename (i + 1) ls
          (m :: r.1, r.2)

/-- The whole body of Standard.loadMentions on an opened file's content. -/
def loadMentionsContent (cfg : Config) (sdict : Option (List (Int × Span)))
    (filename : String) (content : String) :
    (List Mention × Option (List (Int × Mention))) × Option String :=
  let r := readMentionRecords cfg sdict filename 0 (fileLines content)
  match r.2 with
  | some e => ((r.1, none), some e)
  | none => ((r.1, some (mkDict Mention.id r.1)), none)

/-! ### Entity -/

/-- Modelled from the spec: dialent.objects.Entity (outside src/), a
coreference chain with two construction modes, represented per the
spec's design note as a tagged variant: the standard mode carries the
accumulated block buffer together with the mentions resolved against the
mention table, and the degenerate/test mode carries the raw buffer
only. -/
inductive Entity where
  | standard (buffer : String) (mentions : List Mention) : Entity
  | test (buffer : String) : Entity
deriving Repr, DecidableEq

/-- Whether an entity was built in the standard (fully resolved) mode. -/
def Entity.isStandard : Entity → Bool
  | .standard _ _ => true
  | .test _ => false

/-- The block buffer an entity was built from. -/
def Entity.buffer : Entity → String
  | .standard b _ => b
  | .test b => b

/-- Modelled from the spec: Entity.fromStandard(buffer, mention_dict,
span_dict) resolves the mention references listed in the buffer (the
first whitespace field of each block line is a mention id) against the
mention table; a parse or lookup failure raises.  The span table
parameter is kept for signature fidelity. -/
def Entity.fromStandard (buffer : String)
    (mdict : Option (List (Int × Mention)))
    (_sdict : Option (List (Int × Span))) : Except String Entity :=
  let idFields :=
    (fileLines buffer).filterMap (fun l =>
      match (splitOnChar ' ' (pyStrip l).data).filter (fun w => w ≠ []) with
      | [] => none
      | w :: _ => some (String.mk w))
  match mdict with
  | none => .error "AttributeError: _mention_dict"
  | some d =>
      match pyIntList idFields with
      | none => .error "ValueError: invalid literal for int()"
      | some ids =>
          (ids.foldr (fun i acc => do
              let ms ← acc
              match dictLookup d i with
              | none => Except.error ("KeyError: " ++ toString i)
              | some m => pure (m :: ms))
            (Except.ok [])).map (fun ms => Entity.standard buffer ms)

/-- Modelled from the spec: Entity.fromTest(buffer) keeps the raw
unresolved buffer as the degenerate/test variant. -/
def Entity.fromTest (buffer : String) : Entity :=
  Entity.test buffer

/-- The block-accumulating loop of Standard.loadCoreference lines
180-191: strip each raw line; a blank line flushes a nonempty buffer
into a standard-mode entity; a nonempty line is appended to the buffer
with a newline.  A resolution failure stops the loop, keeping the
entities appended so far. -/
def readCorefLines (mdict : Option (List (Int × Mention)))
    (sdict : Option (List (Int × Span))) :
    List Entity × String → List String → (List Entity × String) × Option String
  | acc, [] => (acc, none)
  | (es, buffer), raw_line :: ls =>
      let line := pyStrip raw_line
      if line.length = 0 then
        if buffer.length > 0 then
          match Entity.fromStandard buffer mdict sdict with
          | .error e => ((es, buffer), some e)
          | .ok ent => readCorefLines mdict sdict (es ++ [ent], "") ls
        else readCorefLines mdict sdict (es, buffer) ls
      else readCorefLines mdict sdict (es, buffer ++ line ++ "\n") ls

/-- The whole body of Standard.loadCoreference on an opened file's
content: run the block loop over the file lines and flush a nonempty
trailing buffer as a test-mode entity. -/
def loadCorefContent (mdict : Option (List (Int × Mention)))
    (sdict : Option (List (Int × Span))) (content : String) :
    List Entity × Option String :=
  let r := readCorefLines mdict sdict ([], "") (fileLines content)
  match r.2 with
  | some e => (r.1.1, some e)
  | none =>
      if r.1.2.length > 0 then (r.1.1 ++ [Entity.fromTest r.1.2], none)
      else (r.1.1, none)

/-! ### TokenSet and makeTokenSets -/

/-- Modelled from the spec: dialent.objects.TokenSet (outside src/), the
derived per-mention token collection: the covered tokens, the normalized
semantic tag, the per-token classification marks (keyed by token id,
last write wins), and the optional parent reference to an enclosing
organization TokenSet, represented as an index into the list of
organization TokenSets of the same build. -/
structure TokenSet where
  tokens : List Token
  tag : String
  marks : List (Int × String) := []
  parent : Option Nat := none
deriving Repr, DecidableEq

/-- Modelled from the spec: TokenSet.setMark(token, mark) records the
mark for the token, overwriting an earlier mark for the same token. -/
def TokenSet.setMark (ts : TokenSet) (t : Token) (mark : String) : TokenSet :=
  { ts with marks := ts.marks ++ [(t.id, mark)] }

/-- The start offsets of the tokens of a TokenSet. -/
def TokenSet.starts (ts : TokenSet) : List Int :=
  ts.tokens.map Token.start

/-- Modelled from the spec: lexical containment for the
organization-nesting pass, pinned down by the spec as: A is nested in B
iff every token of A lies within B's token run in the registry's token
order (the order by start offset), both sets being nonempty. -/
def TokenSet.isNestedIn (a b : TokenSet) : Bool :=
  match b.starts.min?, b.starts.max? with
  | some lo, some hi =>
      a.tokens ≠ [] && a.tokens.all (fun t => lo ≤ t.start && t.start ≤ hi)
  | _, _ => false

/-- Scan the candidate list for the first TokenSet, other than the one
at selfIdx, that encloses org; j is the index of the scan head. -/
def findFirstParent (org : TokenSet) (selfIdx : Nat) :
    Nat → List TokenSet → Option Nat
  | _, [] => none
  | j, t :: ts =>
      if j ≠ selfIdx ∧ org.isNestedIn t then some j
      else findFirstParent org selfIdx (j + 1) ts

/-- Modelled from the spec: the nesting pass `for org in all_orgs:
org.findParents(all_orgs)`.  Each TokenSet is checked against every
other TokenSet of the list, and when an enclosing one is found (the
first, in list order) it is recorded as the parent.  The pass reads only
the token runs, never the parent fields it writes, so checking against
the original list is faithful to the Python in-place loop. -/
def findParentsPass (all_orgs : List TokenSet) : List TokenSet :=
  all_orgs.mapIdx (fun i org =>
    match findFirstParent org i 0 all_orgs with
    | some j => { org with parent := some j }
    | none => org)

/-- The allowed tag set of makeTokenSets lines 204-206.  (The Python
value is a set; it is represented as the list of its elements.) -/
def allowedTags (is_locorg_allowed : Bool) : List String :=
  ["org", "per", "loc"] ++ if is_locorg_allowed then ["locorg"] else []

/-- The key a mention is grouped under, lines 210-212: the alias
organization category folds into the plain location category when
disabled. -/
def mentionKey (is_locorg_allowed : Bool) (m : Mention) : String :=
  if m.tag = "locorg" && !is_locorg_allowed then "loc" else m.tag

/-- The TokenSet built for one mention, lines 214-220: the tokens of all
its spans, tagged with the resolved key; every token of every span gets
the mark looked up from the external table for (set tag, span tag). -/
def mkTS (getMark : String → String → String) (key : String)
    (m : Mention) : TokenSet :=
  let ts : TokenSet :=
    { tokens := m.spans.flatMap (fun span => span.tokens), tag := key }
  m.spans.foldl
    (fun acc span =>
      span.tokens.foldl (fun a token => a.setMark token (getMark ts.tag span.tag))
        acc)
    ts

/-- Append a TokenSet to the list of its category, res[key].append(ts). -/
def appendAt (res : List (String × List TokenSet)) (key : String)
    (ts : TokenSet) : List (String × List TokenSet) :=
  res.map (fun p => if p.1 = key then (p.1, p.2 ++ [ts]) else p)

/-- Dictionary lookup in the result mapping. -/
def dictGet (res : List (String × List TokenSet)) (k : String) :
    Option (List TokenSet) :=
  (res.find? (fun p => p.1 = k)).map (fun p => p.2)

/-- The mention loop of makeTokenSets lines 209-221: resolve the key,
assert it is allowed (an AssertionError fails the whole operation),
build the TokenSet and append it to its category. -/
def mentionLoop (getMark : String → String → String)
    (is_locorg_allowed : Bool) :
    List (String × List TokenSet) → List Mention →
    Except String (List (String × List TokenSet))
  | res, [] => .ok res
  | res, m :: ms =>
      let key := mentionKey is_locorg_allowed m
      if key ∈ allowedTags is_locorg_allowed then
        mentionLoop getMark is_locorg_allowed
          (appendAt res key (mkTS getMark key m)) ms
      else .error "AssertionError"

/-- Standard.makeTokenSets lines 198-230: build the per-category
TokenSet lists over self.mentions, then run the organization-nesting
pass over the combined organization (+ alias, if enabled) TokenSets and
write the updated TokenSets back into their categories.  (The Python
pass mutates the TokenSet objects shared between all_orgs and the result
lists; here the updated org and locorg lists are reassembled from the
passed list.) -/
def makeTokenSets (getMark : String → String → String)
    (mentions : List Mention) (is_locorg_allowed : Bool) :
    Except String (List (String × List TokenSet)) :=
  let res0 := (allowedTags is_locorg_allowed).map (fun t => (t, ([] : List TokenSet)))
  match mentionLoop getMark is_locorg_allowed res0 mentions with
  | .error e => .error e
  | .ok res =>
      let orgs := (dictGet res "org").getD []
      let locorgs := if is_locorg_allowed then (dictGet res "locorg").getD [] else []
      let all_orgs := orgs ++ locorgs
      let passed := findParentsPass all_orgs
      let res1 := res.map (fun p =>
        if p.1 = "org" then (p.1, passed.take orgs.length)
        else if p.1 = "locorg" ∧ is_locorg_allowed then (p.1, passed.drop orgs.length)
        else p)
      .ok res1

/-! ### The Standard document facade -/

/-- The attribute state of a Standard object: every field is an Option
because a Python attribute exists only once assigned.  The dictionary
attributes (_token_dict and friends) are set only when their load stage
ran to completion; the list attributes are set (initially empty, then
partially or fully populated) as soon as their stage starts. -/
structure StandardState where
  tokens : Option (List Token) := none
  tokenDict : Option (List (Int × Token)) := none
  spans : Option (List Span) := none
  spanDict : Option (List (Int × Span)) := none
  mentions : Option (List Mention) := none
  mentionDict : Option (List (Int × Mention)) := none
  entities : Option (List Entity) := none
  text : Option String := none
  name : Option String := none
deriving Repr, DecidableEq

/-- The five files a document load may read; None models a file that
cannot be opened. -/
structure FileSet where
  tokensFile : Option String := none
  spansFile : Option String := none
  objectsFile : Option String := none
  corefFile : Option String := none
  txtFile : Option String := none
deriving Repr, DecidableEq

/-- Standard.loadTokens as a state transformer: self.tokens is assigned
(empty) before the file is opened; a missing file raises; otherwise the
content is processed, leaving on failure the partially read list with no
dictionary. -/
def loadTokensSt (cfg : Config) (file : Option String) (filename : String)
    (st : StandardState) : StandardState × Option String :=
  let st := { st with tokens := some [] }
  match file with
  | none => (st, some ("FileNotFoundError: " ++ filename))
  | some content =>
      let r := loadTokensContent cfg filename content
      ({ st with tokens := some r.1.1, tokenDict := r.1.2 }, r.2)

/-- Standard.loadSpans as a state transformer. -/
def loadSpansSt (cfg : Config) (file : Option String) (filename : String)
    (st : StandardState) : StandardState × Option String :=
  let st := { st with spans := some [] }
  match file with
  | none => (st, some ("FileNotFoundError: " ++ filename))
  | some content =>
      let r := loadSpansContent cfg st.tokenDict filename content
      ({ st with spans := some r.1.1, spanDict := r.1.2 }, r.2)

/-- Standard.loadMentions as a state transformer. -/
def loadMentionsSt (cfg : Config) (file : Option String) (filename : String)
    (st : StandardState) : StandardState × Option String :=
  let st := { st with mentions := some [] }
  match file with
  | none => (st, some ("FileNotFoundError: " ++ filename))
  | some content =>
      let r := loadMentionsContent cfg st.spanDict filename content
      ({ st with mentions := some r.1.1, mentionDict := r.1.2 }, r.2)

/-- Standard.loadCoreference as a state transformer: self.entities is
assigned (empty) first; a file that cannot be opened is silently treated
as zero entities (the one place absence is not an error); otherwise the
blocks are processed, a resolution failure leaving the entities built so
far. -/
def loadCoreferenceSt (file : Option String)
    (st : StandardState) : StandardState × Option String :=
  let st := { st with entities := some [] }
  match file with
  | none => (st, none)
  | some content =>
      let r := loadCorefContent st.mentionDict st.spanDict content
      ({ st with entities := some r.1 }, r.2)

/-- Standard.loadText as a state transformer: joining the iterated lines
of the file reproduces its content. -/
def loadTextSt (file : Option String) (filename : String)
    (st : StandardState) : StandardState × Option String :=
  match file with
  | none => (st, some ("FileNotFoundError: " ++ filename))
  | some content => ({ st with text := some content }, none)

/-- The try block of Standard.__init__ lines 29-36: the five load stages
run strictly in order, each on its own file name derived from the
document name; the first raised error aborts the sequence; the document
name attribute is assigned only after all five stages succeed.  The
returned pair carries the attribute state together with the error that
reached the top-level handler, if any. -/
def initSteps (cfg : Config) (fs : FileSet) (name path : String) :
    StandardState × Option String :=
  let full_name := path ++ "/" ++ name
  let r1 := loadTokensSt cfg fs.tokensFile (full_name ++ ".tokens") {}
  match r1.2 with
  | some e => (r1.1, some e)
  | none =>
    let r2 := loadSpansSt cfg fs.spansFile (full_name ++ ".spans") r1.1
    match r2.2 with
    | some e => (r2.1, some e)
    | none =>
      let r3 := loadMentionsSt cfg fs.objectsFile (full_name ++ ".objects") r2.1
      match r3.2 with
      | some e => (r3.1, some e)
      | none =>
        let r4 := loadCoreferenceSt fs.corefFile r3.1
        match r4.2 with
        | some e => (r4.1, some e)
        | none =>
          let r5 := loadTextSt fs.txtFile (full_name ++ ".txt") r4.1
          match r5.2 with
          | some e => (r5.1, some e)
          | none => ({ r5.1 with name := some name }, none)

/-- Standard.__init__: the whole load sequence runs inside a try block
whose handler catches every exception, prints it, and returns normally,
so the constructor always yields the (possibly partially populated)
attribute state and never propagates an error. -/
def standardInit (cfg : Config) (fs : FileSet) (name path : String) :
    StandardState :=
  (initSteps cfg fs name path).1

/-! ### Concrete fixtures used by the witnesses -/

/-- The configuration constants of the export format (dialent.config):
space-delimited records of four token fields, span sections separated by
the hash character, comments introduced by a hash field. -/
def cfg0 : Config :=
  { DEFAULT_DELIMITER := ' ', QUOTECHAR := '"', TOKEN_LINE_LENGTH := 4,
    SPAN_FILE_SEPARATOR := '#', COMMENT_SEPARATOR := "#" }

/-! ### Claims -/

/-- C7: loading a document whose coreference file cannot be opened
assigns entities = [] and raises no error: loadCoreference first sets
self.entities to the empty list and the failed open returns normally,
so the absence of this one file is not a load failure. -/
theorem claim_C7 (st : StandardState) :
    loadCoreferenceSt none st = ({ st with entities := some [] }, none) := rfl

/-- The allowed-tag set is contained in the four-tag vocabulary, and a
resolved key equal to the alias category only occurs when the alias is
enabled, so membership in the two sets agrees for resolved keys. -/
theorem mentionKey_mem_four_iff (flag : Bool) (m : Mention) :
    mentionKey flag m ∈ allowedTags flag ↔
      mentionKey flag m ∈ (["org", "per", "loc", "locorg"] : List String) := by
  constructor
  · intro h
    simp only [allowedTags] at h
    rcases List.mem_append.1 h with h | h
    · simp at h
      rcases h with h | h | h <;> simp [h]
    · rcases flag with _ | _ <;> simp_all
  · intro h
    simp at h
    rcases h with h | h | h | h <;> simp [allowedTags, h]
    rcases flag with _ | _
    · exfalso
      revert h
      simp only [mentionKey]
      split <;> simp_all
    · simp

/-- A mention whose resolved key is not allowed makes the mention loop
fail with the assertion error, whatever else the list contains. -/
theorem mentionLoop_error_of_bad (g : String → String → String) (flag : Bool) :
    ∀ (ms : List Mention) (res : List (String × List TokenSet)) (m : Mention),
      m ∈ ms → mentionKey flag m ∉ allowedTags flag →
      mentionLoop g flag res ms = .error "AssertionError" := by
  intro ms
  induction ms with
  | nil => intro res m hm; simp at hm
  | cons m' ms ih =>
      intro res m hm hbad
      rcases List.mem_cons.1 hm with rfl | hm
      · simp only [mentionLoop]
        rw [if_neg hbad]
      · simp only [mentionLoop]
        by_cases h : mentionKey flag m' ∈ allowedTags flag
        · rw [if_pos h]
          exact ih _ m hm hbad
        · rw [if_neg h]

/-- C8: makeTokenSets asserts that every mention's tag, after the
optional folding of the alias organization category into the plain
location category, is one of the four known categories; a mention
bearing any other tag (such as the data model's other category) makes
the whole operation fail with an AssertionError instead of being
skipped or grouped. -/
theorem claim_C8 (getMark : String → String → String)
    (mentions : List Mention) (flag : Bool) (m : Mention)
    (hm : m ∈ mentions)
    (hbad : mentionKey flag m ∉ (["org", "per", "loc", "locorg"] : List String)) :
    makeTokenSets getMark mentions flag = .error "AssertionError" := by
  have hb : mentionKey flag m ∉ allowedTags flag :=
    fun h => hbad ((mentionKey_mem_four_iff flag m).1 h)
  have h := mentionLoop_error_of_bad getMark flag mentions
    ((allowedTags flag).map (fun t => (t, ([] : List TokenSet)))) m hm hb
  simp [makeTokenSets, h]

/-- C8 witness: a single mention tagged with the other category fails
the assertion. -/
theorem claim_C8_witness :
    ({ id := 1, tag := "other", spans := [] } : Mention) ∈
        [({ id := 1, tag := "other", spans := [] } : Mention)] ∧
    mentionKey true { id := 1, tag := "other", spans := [] } ∉
        (["org", "per", "loc", "locorg"] : List String) ∧
    makeTokenSets (fun _ _ => "") [{ id := 1, tag := "other", spans := [] }] true =
      .error "AssertionError" :=
  ⟨List.mem_singleton.2 rfl, by decide,
    claim_C8 (fun _ _ => "") _ true _ (List.mem_singleton.2 rfl) (by decide)⟩

/-- Splitting on a character that does not occur leaves the list whole. -/
theorem splitOnChar_not_mem (sep : Char) :
    ∀ cs : List Char, sep ∉ cs → splitOnChar sep cs = [cs] := by
  intro cs
  induction cs with
  | nil => intro _; rfl
  | cons c cs ih =>
      intro h
      have hc : ¬ c = sep := fun hc => h (by simp [hc])
      have hcs : sep ∉ cs := fun hm => h (List.mem_cons_of_mem c hm)
      simp only [splitOnChar, List.foldr] at ih ⊢
      rw [if_neg hc, ih hcs]

/-- A String is empty exactly when its character list is. -/
theorem string_length_ne_zero {l : String} (h : l ≠ "") : l.length ≠ 0 := by
  intro h0
  apply h
  cases l with
  | mk data =>
      cases data with
      | nil => rfl
      | cons c cs => simp [String.length] at h0

/-- C9: the blank-line skip of loadSpans never fires: lines obtained by
iterating the open file keep their trailing newline, so the length-zero
check is unreachable for any line of the file (the per-line processing
never takes the skip branch), and a blank line (a bare newline) instead
raises the fatal missing-separator error, because splitting it on the
separator yields one part, not two. -/
theorem claim_C9 (cfg : Config) (content : String) :
    (∀ l ∈ fileLines content, l.length ≠ 0) ∧
    (∀ (tdict : Option (List (Int × Token))) (filename : String) (index : Nat),
      ∀ l ∈ fileLines content,
        parseSpanLine cfg tdict filename index l ≠ .ok none) ∧
    (cfg.SPAN_FILE_SEPARATOR ≠ '\n' →
      ∀ (tdict : Option (List (Int × Token))) (filename : String) (index : Nat),
        parseSpanLine cfg tdict filename index "\n" =
          .error ("Expected symbol \"" ++ String.mk [cfg.SPAN_FILE_SEPARATOR] ++
            "\" missing in line " ++ toString index ++ " of file " ++ filename)) := by
  refine ⟨?_, ?_, ?_⟩
  · intro l hl
    exact string_length_ne_zero (fileLines_ne_empty content l hl)
  · intro tdict filename index l hl
    have hlen : ¬ l.length = 0 :=
      string_length_ne_zero (fileLines_ne_empty content l hl)
    simp only [parseSpanLine]
    rw [if_neg hlen]
    split
    · split
      · simp
      · split
        · simp
        · split
          · simp
          · split
            · simp
            · simp
    · simp
  · intro hsep tdict filename index
    simp only [parseSpanLine]
    rw [if_neg (by decide : ¬ ("\n" : String).length = 0)]
    rw [splitOnChar_not_mem cfg.SPAN_FILE_SEPARATOR ['\n'] (by simpa using hsep)]

/-- C9 witness: in a concrete spans file the nonempty iterated line is
never skipped and a blank line yields the missing-separator error. -/
theorem claim_C9_witness :
    ("ab\n" : String).length ≠ 0 ∧
    parseSpanLine cfg0 none "doc.spans" 0 "ab\n" ≠ .ok none ∧
    parseSpanLine cfg0 none "doc.spans" 1 "\n" =
      .error "Expected symbol \"#\" missing in line 1 of file doc.spans" :=
  ⟨(claim_C9 cfg0 "ab\n").1 "ab\n" (by decide),
   (claim_C9 cfg0 "ab\n").2.1 none "doc.spans" 0 "ab\n" (by decide),
   (claim_C9 cfg0 "ab\n").2.2 (by decide) none "doc.spans" 1⟩

/-- Successful token-id resolution yields one token per id field. -/
theorem resolveTokenIds_length (tdict : Option (List (Int × Token))) :
    ∀ (ss : List String) (toks : List Token),
      resolveTokenIds tdict ss = .ok toks → toks.length = ss.length := by
  intro ss
  induction ss with
  | nil =>
      intro toks h
      simp only [resolveTokenIds] at h
      cases h
      rfl
  | cons s ss ih =>
      intro toks h
      cases hpi : pyInt s with
      | none => simp [resolveTokenIds, hpi] at h
      | some i =>
          cases tdict with
          | none => simp [resolveTokenIds, hpi] at h
          | some d =>
              cases hlk : dictLookup d i with
              | none => simp [resolveTokenIds, hpi, hlk] at h
              | some t =>
                  simp only [resolveTokenIds, hpi, hlk] at h
                  cases hrec : resolveTokenIds (some d) ss with
                  | error e => rw [hrec] at h; cases h
                  | ok ts =>
                      rw [hrec] at h
                      cases h
                      simp [ih ts hrec]

/-- A span record that parses has exactly its declared number of
resolved tokens. -/
theorem parseSpanLine_ok_length (cfg : Config)
    (tdict : Option (List (Int × Token))) (filename : String) (index : Nat)
    (line : String) (sp : Span)
    (h : parseSpanLine cfg tdict filename index line = .ok (some sp)) :
    (sp.tokens.length : Int) = sp.ntokens := by
  simp only [parseSpanLine] at h
  split at h
  · cases h
  · split at h
    · split at h
      · cases h
      · split at h
        · cases h
        · rename_i new_span hof
          split at h
          · cases h
          · rename_i hr2
            split at h
            · cases h
            · rename_i toks hres
              cases h
              show (toks.length : Int) = new_span.ntokens
              rw [not_not] at hr2
              have hlen := resolveTokenIds_length tdict _ _ hres
              rw [List.length_take] at hlen
              omega
    · cases h

/-- Every span read by the record loop of loadSpans satisfies the token
count invariant. -/
theorem readSpanRecords_ok_length (cfg : Config)
    (tdict : Option (List (Int × Token))) (filename : String) :
    ∀ (ls : List String) (i : Nat),
      (readSpanRecords cfg tdict filename i ls).2 = none →
      ∀ sp ∈ (readSpanRecords cfg tdict filename i ls).1,
        (sp.tokens.length : Int) = sp.ntokens := by
  intro ls
  induction ls with
  | nil => intro i _ sp hsp; simp [readSpanRecords] at hsp
  | cons l ls ih =>
      intro i herr sp hsp
      cases hline : parseSpanLine cfg tdict filename i l with
      | error e =>
          simp only [readSpanRecords, hline] at herr
          cases herr
      | ok o =>
          cases o with
          | none =>
              simp only [readSpanRecords, hline] at herr hsp
              exact ih (i + 1) herr sp hsp
          | some sp' =>
              simp only [readSpanRecords, hline] at herr hsp
              rcases List.mem_cons.1 hsp with rfl | hsp
              · exact parseSpanLine_ok_length cfg tdict filename i l sp hline
              · exact ih (i + 1) herr sp hsp

/-- C3: the three format validations of loadSpans are fatal with errors
naming the line and file: a missing separator, fewer than six left
fields, and a right-section field count different from twice the
declared token count; and every span that loads resolves exactly its
declared number of tokens. -/
theorem claim_C3 (cfg : Config) (tdict : Option (List (Int × Token)))
    (filename : String) (index : Nat) (line : String) :
    (line.length ≠ 0 → cfg.SPAN_FILE_SEPARATOR ∉ line.data →
      parseSpanLine cfg tdict filename index line =
        .error ("Expected symbol \"" ++ String.mk [cfg.SPAN_FILE_SEPARATOR] ++
          "\" missing in line " ++ toString index ++ " of file " ++ filename)) ∧
    (∀ left right, line.length ≠ 0 →
      splitOnChar cfg.SPAN_FILE_SEPARATOR line.data = [left, right] →
      (filteredFields cfg.DEFAULT_DELIMITER left).length < 6 →
      parseSpanLine cfg tdict filename index line =
        .error ("Missing left parts in line " ++ toString index ++
          " of file " ++ filename)) ∧
    (∀ left right new_span, line.length ≠ 0 →
      splitOnChar cfg.SPAN_FILE_SEPARATOR line.data = [left, right] →
      ¬ (filteredFields cfg.DEFAULT_DELIMITER left).length < 6 →
      Span.ofFields (filteredFields cfg.DEFAULT_DELIMITER left) = .ok new_span →
      ((filteredFields cfg.DEFAULT_DELIMITER right).length : Int) ≠
        2 * new_span.ntokens →
      parseSpanLine cfg tdict filename index line =
        .error ("Missing right parts in line " ++ toString index ++
          " of file " ++ filename)) ∧
    (∀ content, (loadSpansContent cfg tdict filename content).2 = none →
      ∀ sp ∈ (loadSpansContent cfg tdict filename content).1.1,
        (sp.tokens.length : Int) = sp.ntokens) := by
  refine ⟨?_, ?_, ?_, ?_⟩
  · intro hlen hsep
    simp only [parseSpanLine]
    rw [if_neg hlen, splitOnChar_not_mem cfg.SPAN_FILE_SEPARATOR line.data hsep]
  · intro left right hlen hsplit hleft
    simp only [parseSpanLine]
    rw [if_neg hlen, hsplit]
    simp only [if_pos hleft]
  · intro left right new_span hlen hsplit hleft hof hright
    simp only [parseSpanLine]
    rw [if_neg hlen, hsplit]
    simp only [if_neg hleft, hof, if_pos hright]
  · intro content herr sp hsp
    simp only [loadSpansContent] at herr hsp
    split at herr
    · cases herr
    · rename_i hnone
      simp only [hnone] at hsp
      exact readSpanRecords_ok_length cfg tdict filename _ 0 hnone sp hsp

/-- C3 witness: a concrete record without the separator is fatal with
the line and file named, and a concrete well-formed spans file loads
with every span holding exactly its declared number of tokens. -/
theorem claim_C3_witness :
    parseSpanLine cfg0 none "doc.spans" 2 "1 org 0 4 1 1\n" =
      .error "Expected symbol \"#\" missing in line 2 of file doc.spans" ∧
    (loadSpansContent cfg0
        (some [(1, { id := 1, start := 0, length := 4, text := "Bank" })])
        "doc.spans" "1 org 0 4 1 1 # 1 Bank\n").2 = none ∧
    ∀ sp ∈ (loadSpansContent cfg0
        (some [(1, { id := 1, start := 0, length := 4, text := "Bank" })])
        "doc.spans" "1 org 0 4 1 1 # 1 Bank\n").1.1,
      (sp.tokens.length : Int) = sp.ntokens :=
  ⟨(claim_C3 cfg0 none "doc.spans" 2 "1 org 0 4 1 1\n").1 (by decide) (by decide),
   by decide,
   (claim_C3 cfg0
      (some [(1, { id := 1, start := 0, length := 4, text := "Bank" })])
      "doc.spans" 0 "").2.2.2 "1 org 0 4 1 1 # 1 Bank\n" (by decide)⟩

instance : IsTotal Token (fun a b => a.start ≤ b.start) :=
  ⟨fun a b => Int.le_total a.start b.start⟩

instance : IsTrans Token (fun a b => a.start ≤ b.start) :=
  ⟨fun _ _ _ h1 h2 => le_trans h1 h2⟩

/-- The sorted token list is ordered by start offset. -/
theorem sortTokens_pairwise (l : List Token) :
    List.Pairwise (fun a b => a.start ≤ b.start) (sortTokens l) :=
  List.sorted_insertionSort (fun a b : Token => a.start ≤ b.start) l

/-- Linking does not change the number of tokens. -/
theorem setLinks_length (l : List Token) : (setLinks l).length = l.length := by
  simp [setLinks]

/-- The token at position i of the linked list is the sorted list's
token with its neighbor indices filled in. -/
theorem setLinks_get (l : List Token) (i : Nat)
    (h : i < (setLinks l).length) :
    (setLinks l).get ⟨i, h⟩ =
      { l.get ⟨i, by rw [setLinks_length] at h; exact h⟩ with
        prev := if i = 0 then none else some (i - 1),
        next := if i = l.length - 1 then none else some (i + 1) } := by
  simp [setLinks, List.get_ofFn]

/-- Linking does not change the start offsets. -/
theorem setLinks_map_start (l : List Token) :
    (setLinks l).map Token.start = l.map Token.start := by
  rw [setLinks, List.map_ofFn]
  exact List.ofFn_getElem_eq_map l Token.start

/-- Linking preserves the start-offset ordering. -/
theorem setLinks_pairwise (l : List Token)
    (h : List.Pairwise (fun a b => a.start ≤ b.start) l) :
    List.Pairwise (fun a b => a.start ≤ b.start) (setLinks l) := by
  have hmap : List.Pairwise (fun a b : Int => a ≤ b) ((setLinks l).map Token.start) := by
    rw [setLinks_map_start]
    exact (List.pairwise_map).2 h
  exact (List.pairwise_map).1 hmap

/-- C2: after loadTokens succeeds on a token file with at least one
record, the token sequence is sorted by start offset, every position's
prev/next are its left and right neighbors in that order, and exactly
one token (the first) has no prev while exactly one (the last) has no
next. -/
theorem claim_C2 (cfg : Config) (filename content : String)
    (hok : (loadTokensContent cfg filename content).2 = none)
    (hne : (loadTokensContent cfg filename content).1.1 ≠ []) :
    List.Pairwise (fun a b => a.start ≤ b.start)
      (loadTokensContent cfg filename content).1.1 ∧
    (∀ (i : Nat) (h : i < (loadTokensContent cfg filename content).1.1.length),
      ((loadTokensContent cfg filename content).1.1.get ⟨i, h⟩).prev =
        (if i = 0 then none else some (i - 1)) ∧
      ((loadTokensContent cfg filename content).1.1.get ⟨i, h⟩).next =
        (if i = (loadTokensContent cfg filename content).1.1.length - 1 then none
          else some (i + 1))) ∧
    (∃ h0 : 0 < (loadTokensContent cfg filename content).1.1.length,
      ((loadTokensContent cfg filename content).1.1.get ⟨0, h0⟩).prev = none ∧
      ∀ (i : Nat) (h : i < (loadTokensContent cfg filename content).1.1.length),
        ((loadTokensContent cfg filename content).1.1.get ⟨i, h⟩).prev = none →
          i = 0) ∧
    (∃ hl : (loadTokensContent cfg filename content).1.1.length - 1 <
        (loadTokensContent cfg filename content).1.1.length,
      ((loadTokensContent cfg filename content).1.1.get
        ⟨(loadTokensContent cfg filename content).1.1.length - 1, hl⟩).next = none ∧
      ∀ (i : Nat) (h : i < (loadTokensContent cfg filename content).1.1.length),
        ((loadTokensContent cfg filename content).1.1.get ⟨i, h⟩).next = none →
          i = (loadTokensContent cfg filename content).1.1.length - 1) := by
  cases herr : (readTokenRecords cfg filename 0 (fileLines content)).2 with
  | some e =>
      exfalso
      simp only [loadTokensContent, herr] at hok
      cases hok
  | none =>
      have htoks : (loadTokensContent cfg filename content).1.1 =
          setLinks (sortTokens (readTokenRecords cfg filename 0 (fileLines content)).1) := by
        simp only [loadTokensContent, herr]
      rw [htoks] at hne ⊢
      set m := sortTokens (readTokenRecords cfg filename 0 (fileLines content)).1 with hm
      have hpos : 0 < (setLinks m).length := List.length_pos.2 hne
      have hmlen : m.length = (setLinks m).length := (setLinks_length m).symm
      refine ⟨?_, ?_, ?_, ?_⟩
      · exact setLinks_pairwise m (sortTokens_pairwise _)
      · intro i h
        rw [setLinks_get m i h]
        constructor
        · rfl
        · simp only [hmlen]
      · refine ⟨hpos, ?_, ?_⟩
        · rw [setLinks_get m 0 hpos]
          simp
        · intro i h hprev
          rw [setLinks_get m i h] at hprev
          by_contra hi
          rw [if_neg hi] at hprev
          cases hprev
      · have hl : (setLinks m).length - 1 < (setLinks m).length := by omega
        refine ⟨hl, ?_, ?_⟩
        · rw [setLinks_get m _ hl]
          simp [hmlen]
        · intro i h hnext
          rw [setLinks_get m i h] at hnext
          by_contra hi
          rw [← hmlen] at hi
          rw [if_neg hi] at hnext
          cases hnext

/-- C2 counterexample: an empty token file is well-formed (every record
satisfies the format) and loads without error, but it yields zero
tokens, so no token at all lacks a prev link, contradicting the claim
that exactly one token has no prev. -/
theorem claim_C2_counterexample :
    (loadTokensContent cfg0 "doc.tokens" "").2 = none ∧
    (loadTokensContent cfg0 "doc.tokens" "").1.1 = [] ∧
    ¬ ∃ i : Fin (loadTokensContent cfg0 "doc.tokens" "").1.1.length,
        ((loadTokensContent cfg0 "doc.tokens" "").1.1.get i).prev = none := by
  refine ⟨rfl, rfl, ?_⟩
  rintro ⟨i, -⟩
  have hlt := i.isLt
  have hz : (loadTokensContent cfg0 "doc.tokens" "").1.1.length = 0 := rfl
  omega

/-- C2 witness: a two-record token file with out-of-order start offsets
loads into a start-sorted list. -/
theorem claim_C2_witness :
    (loadTokensContent cfg0 "doc.tokens" "1 5 3 abc\n2 0 4 xyz\n").2 = none ∧
    (loadTokensContent cfg0 "doc.tokens" "1 5 3 abc\n2 0 4 xyz\n").1.1 ≠ [] ∧
    List.Pairwise (fun a b => a.start ≤ b.start)
      (loadTokensContent cfg0 "doc.tokens" "1 5 3 abc\n2 0 4 xyz\n").1.1 :=
  ⟨by decide, by decide,
   (claim_C2 cfg0 "doc.tokens" "1 5 3 abc\n2 0 4 xyz\n" (by decide) (by decide)).1⟩

/-- Setting marks never changes the tokens, tag or parent of a
TokenSet. -/
theorem setMark_inner_preserve (mk : String) :
    ∀ (toks : List Token) (ts : TokenSet),
      (toks.foldl (fun a t => TokenSet.setMark a t mk) ts).tag = ts.tag ∧
      (toks.foldl (fun a t => TokenSet.setMark a t mk) ts).parent = ts.parent ∧
      (toks.foldl (fun a t => TokenSet.setMark a t mk) ts).tokens = ts.tokens := by
  intro toks
  induction toks with
  | nil => intro ts; exact ⟨rfl, rfl, rfl⟩
  | cons t toks ih =>
      intro ts
      simpa [List.foldl_cons, TokenSet.setMark] using ih (ts.setMark t mk)

/-- The mark-assignment double loop never changes the tokens, tag or
parent of a TokenSet. -/
theorem setMark_outer_preserve (f : Span → String) :
    ∀ (spans : List Span) (acc : TokenSet),
      ((spans.foldl
          (fun a span => span.tokens.foldl (fun b t => b.setMark t (f span)) a)
          acc)).tag = acc.tag ∧
      ((spans.foldl
          (fun a span => span.tokens.foldl (fun b t => b.setMark t (f span)) a)
          acc)).parent = acc.parent ∧
      ((spans.foldl
          (fun a span => span.tokens.foldl (fun b t => b.setMark t (f span)) a)
          acc)).tokens = acc.tokens := by
  intro spans
  induction spans with
  | nil => intro acc; exact ⟨rfl, rfl, rfl⟩
  | cons sp spans ih =>
      intro acc
      obtain ⟨h1, h2, h3⟩ :=
        ih (sp.tokens.foldl (fun b t => b.setMark t (f sp)) acc)
      obtain ⟨g1, g2, g3⟩ := setMark_inner_preserve (f sp) sp.tokens acc
      exact ⟨h1.trans g1, h2.trans g2, h3.trans g3⟩

/-- The TokenSet built for a mention carries the resolved key as its
tag, an unset parent reference, and the tokens of all the mention's
spans. -/
theorem mkTS_fields (g : String → String → String) (k : String) (m : Mention) :
    (mkTS g k m).tag = k ∧ (mkTS g k m).parent = none ∧
    (mkTS g k m).tokens = m.spans.flatMap (fun s => s.tokens) := by
  simpa [mkTS] using
    setMark_outer_preserve (fun span => g k span.tag) m.spans
      { tokens := m.spans.flatMap (fun s => s.tokens), tag := k }

/-- Appending at a key changes exactly that key's collection. -/
theorem dictGet_appendAt (key : String) (ts : TokenSet) :
    ∀ (res : List (String × List TokenSet)) (k : String),
      dictGet (appendAt res key ts) k =
        if k = key then (dictGet res k).map (fun l => l ++ [ts])
        else dictGet res k := by
  intro res
  induction res with
  | nil => intro k; simp [appendAt, dictGet]
  | cons p res ih =>
      intro k
      by_cases hpk : p.1 = k
      · by_cases hkey : k = key
        · simp [appendAt, dictGet, List.find?, hpk, hkey, hpk.symm ▸ hkey]
        · have : ¬ p.1 = key := fun h => hkey (hpk ▸ h)
          simp [appendAt, dictGet, List.find?, hpk, hkey, this]
      · by_cases hpkey : p.1 = key
        · simp only [appendAt, List.map_cons, if_pos hpkey]
          simp only [dictGet, List.find?] at ih ⊢
          simp only [hpk]
          simpa [appendAt, hpk] using ih k
        · simp only [appendAt, List.map_cons, if_neg hpkey]
          simp only [dictGet, List.find?] at ih ⊢
          simp only [hpk]
          simpa [appendAt, hpk] using ih k

/-- The mention loop appends, to each category present in the result
mapping, one TokenSet per mention resolving to that category, in
mention order. -/
theorem mentionLoop_ok_dictGet (g : String → String → String) (flag : Bool) :
    ∀ (ms : List Mention) (res res' : List (String × List TokenSet)),
      mentionLoop g flag res ms = .ok res' →
      ∀ k, dictGet res' k =
        (dictGet res k).map (fun l =>
          l ++ ((ms.filter (fun m => mentionKey flag m = k)).map
            (fun m => mkTS g k m))) := by
  intro ms
  induction ms with
  | nil =>
      intro res res' h k
      simp only [mentionLoop] at h
      cases h
      simp
  | cons m ms ih =>
      intro res res' h k
      simp only [mentionLoop] at h
      split at h
      · rename_i hkey
        have hrec := ih _ _ h k
        rw [hrec, dictGet_appendAt (mentionKey flag m) (mkTS g (mentionKey flag m) m) res k]
        by_cases hk : k = mentionKey flag m
        · rw [if_pos hk]
          cases hd : dictGet res k with
          | none => simp
          | some l =>
              simp only [Option.map_some, List.filter_cons]
              rw [← hk]
              simp [List.append_assoc]
        · rw [if_neg hk]
          cases hd : dictGet res k with
          | none => simp
          | some l =>
              simp only [Option.map_some, List.filter_cons]
              have : ¬ mentionKey flag m = k := fun hh => hk hh.symm
              simp [this]
      · cases h

/-- The initial category mapping holds an empty collection exactly for
the allowed tags. -/
theorem dictGet_init (l : List String) (k : String) :
    dictGet (l.map (fun t => (t, ([] : List TokenSet)))) k =
      if k ∈ l then some [] else none := by
  induction l with
  | nil => simp [dictGet]
  | cons t l ih =>
      by_cases h : t = k
      · subst h
        simp only [List.map_cons, dictGet]
        rw [List.find?_cons_of_pos _ (by simp)]
        simp
      · have h2 : ¬ k = t := fun hh => h hh.symm
        simp only [List.map_cons, dictGet] at ih ⊢
        rw [List.find?_cons_of_neg _ (by simp [h]), ih]
        simp [List.mem_cons, h2]

/-- Looking a category up in the mapping produced by the mention loop
started from the initial mapping: present exactly for allowed tags,
holding one TokenSet per mention of the category. -/
theorem dictGet_loop_allowed (g : String → String → String) (flag : Bool)
    (mentions : List Mention) (res' : List (String × List TokenSet))
    (hloop : mentionLoop g flag
      ((allowedTags flag).map (fun t => (t, ([] : List TokenSet)))) mentions =
      .ok res') (k : String) :
    dictGet res' k =
      if k ∈ allowedTags flag then
        some ((mentions.filter (fun m => mentionKey flag m = k)).map
          (fun m => mkTS g k m))
      else none := by
  have h := mentionLoop_ok_dictGet g flag mentions _ res' hloop k
  rw [h, dictGet_init]
  by_cases hk : k ∈ allowedTags flag <;> simp [hk]

/-- A successful category lookup comes from a table entry with that
key. -/
theorem dictGet_find?_some (res : List (String × List TokenSet))
    (k : String) (l : List TokenSet) (h : dictGet res k = some l) :
    ∃ p, res.find? (fun p => p.1 = k) = some p ∧ p.1 = k ∧ p.2 = l := by
  unfold dictGet at h
  cases hf : res.find? (fun p => p.1 = k) with
  | none => rw [hf] at h; cases h
  | some p =>
      rw [hf] at h
      cases h
      exact ⟨p, rfl, by simpa using List.find?_some hf, rfl⟩

/-- A failed category lookup means no table entry has that key. -/
theorem dictGet_find?_none (res : List (String × List TokenSet))
    (k : String) (h : dictGet res k = none) :
    res.find? (fun p => p.1 = k) = none := by
  unfold dictGet at h
  cases hf : res.find? (fun p => p.1 = k) with
  | none => rfl
  | some p => rw [hf] at h; cases h

/-- Category lookup through a key-preserving rewrite of the table. -/
theorem dictGet_map_keys (f : String × List TokenSet → String × List TokenSet)
    (hf : ∀ p, (f p).1 = p.1) :
    ∀ (res : List (String × List TokenSet)) (k : String),
      dictGet (res.map f) k =
        (res.find? (fun p => p.1 = k)).map (fun p => (f p).2) := by
  intro res
  induction res with
  | nil => intro k; simp [dictGet]
  | cons p res ih =>
      intro k
      by_cases h : p.1 = k
      · simp only [List.map_cons, dictGet]
        rw [List.find?_cons_of_pos _ (by simp [hf, h]),
          List.find?_cons_of_pos _ (by simp [h])]
        simp
      · simp only [List.map_cons, dictGet] at ih ⊢
        rw [List.find?_cons_of_neg _ (by simp [hf, h]),
          List.find?_cons_of_neg _ (by simp [h])]
        exact ih k

/-- The nesting pass keeps the number of TokenSets. -/
theorem findParentsPass_length (l : List TokenSet) :
    (findParentsPass l).length = l.length := by
  simp [findParentsPass]

/-- The nesting pass only fills in parent indices. -/
theorem findParentsPass_get (l : List TokenSet) (i : Nat) (h : i < l.length)
    (h' : i < (findParentsPass l).length) :
    (findParentsPass l).get ⟨i, h'⟩ =
      (match findFirstParent (l.get ⟨i, h⟩) i 0 l with
        | some j => { l.get ⟨i, h⟩ with parent := some j }
        | none => l.get ⟨i, h⟩) := by
  simp [findParentsPass, List.get_mapIdx l _ i h]

/-- Every TokenSet leaving the nesting pass is one of the entering
TokenSets with only its parent index possibly changed. -/
theorem findParentsPass_mem (l : List TokenSet) :
    ∀ ts ∈ findParentsPass l, ∃ ts0 ∈ l,
      ts.tag = ts0.tag ∧ ts.tokens = ts0.tokens := by
  intro ts hts
  obtain ⟨⟨i, h'⟩, rfl⟩ := List.mem_iff_get.1 hts
  have h : i < l.length := by
    rw [findParentsPass_length] at h'
    exact h'
  refine ⟨l.get ⟨i, h⟩, List.get_mem l i h, ?_⟩
  rw [findParentsPass_get l i h h']
  cases findFirstParent (l.get ⟨i, h⟩) i 0 l with
  | none => exact ⟨rfl, rfl⟩
  | some j => exact ⟨rfl, rfl⟩

/-- A successful makeTokenSets is the looped mapping with the
organization (and, when enabled, alias) collections replaced by the
outcome of the nesting pass. -/
theorem makeTokenSets_ok_shape (g : String → String → String)
    (mentions : List Mention) (flag : Bool)
    (res' : List (String × List TokenSet))
    (hloop : mentionLoop g flag
      ((allowedTags flag).map (fun t => (t, ([] : List TokenSet)))) mentions =
      .ok res') :
    makeTokenSets g mentions flag = .ok (res'.map (fun p =>
      if p.1 = "org" then
        (p.1, (findParentsPass ((dictGet res' "org").getD [] ++
          (if flag then (dictGet res' "locorg").getD [] else []))).take
          ((dictGet res' "org").getD []).length)
      else if p.1 = "locorg" ∧ flag then
        (p.1, (findParentsPass ((dictGet res' "org").getD [] ++
          (if flag then (dictGet res' "locorg").getD [] else []))).drop
          ((dictGet res' "org").getD []).length)
      else p)) := by
  simp only [makeTokenSets, hloop]

/-- C4: with the alias organization category disabled, the TokenSet of
every mention originally tagged with it is placed into the plain
location category tagged as a location, the returned mapping has no
alias key, and no collection of the mapping contains an alias-tagged
TokenSet. -/
theorem claim_C4 (g : String → String → String) (mentions : List Mention)
    (res : List (String × List TokenSet))
    (hok : makeTokenSets g mentions false = .ok res) :
    dictGet res "locorg" = none ∧
    (∀ m ∈ mentions, m.tag = "locorg" →
      mkTS g "loc" m ∈ (dictGet res "loc").getD [] ∧
      (mkTS g "loc" m).tag = "loc") ∧
    (∀ k l, dictGet res k = some l → ∀ ts ∈ l, ts.tag ≠ "locorg") := by
  cases hloop : mentionLoop g false
      ((allowedTags false).map (fun t => (t, ([] : List TokenSet)))) mentions with
  | error e => simp [makeTokenSets, hloop] at hok
  | ok res' =>
      have hshape := makeTokenSets_ok_shape g mentions false res' hloop
      rw [hok] at hshape
      injection hshape with hres
      subst hres
      set F : String × List TokenSet → String × List TokenSet := fun p =>
        if p.1 = "org" then
          (p.1, (findParentsPass ((dictGet res' "org").getD [] ++
            (if (false : Bool) then (dictGet res' "locorg").getD [] else []))).take
            ((dictGet res' "org").getD []).length)
        else if p.1 = "locorg" ∧ (false : Bool) then
          (p.1, (findParentsPass ((dictGet res' "org").getD [] ++
            (if (false : Bool) then (dictGet res' "locorg").getD [] else []))).drop
            ((dictGet res' "org").getD []).length)
        else p with hF
      have hfkeys : ∀ p, (F p).1 = p.1 := by
        intro p
        rw [hF]
        dsimp only
        split_ifs <;> rfl
      have hdlocorg : dictGet res' "locorg" = none := by
        have hd := dictGet_loop_allowed g false mentions res' hloop "locorg"
        rwa [if_neg (by decide)] at hd
      have hdloc : dictGet res' "loc" =
          some ((mentions.filter (fun m => mentionKey false m = "loc")).map
            (fun m => mkTS g "loc" m)) := by
        have hd := dictGet_loop_allowed g false mentions res' hloop "loc"
        rwa [if_pos (by decide)] at hd
      have hdorg : dictGet res' "org" =
          some ((mentions.filter (fun m => mentionKey false m = "org")).map
            (fun m => mkTS g "org" m)) := by
        have hd := dictGet_loop_allowed g false mentions res' hloop "org"
        rwa [if_pos (by decide)] at hd
      refine ⟨?_, ?_, ?_⟩
      · rw [dictGet_map_keys F hfkeys res' "locorg",
          dictGet_find?_none res' "locorg" hdlocorg]
        rfl
      · intro m hm htag
        obtain ⟨p, hp, hpk, hpl⟩ := dictGet_find?_some res' "loc" _ hdloc
        have hFp : F p = p := by
          rw [hF]
          dsimp only
          rw [if_neg (by rw [hpk]; decide), if_neg (by rw [hpk]; simp)]
        have hget : dictGet (res'.map F) "loc" =
            some ((mentions.filter (fun m => mentionKey false m = "loc")).map
              (fun m => mkTS g "loc" m)) := by
          rw [dictGet_map_keys F hfkeys res' "loc", hp]
          simp [hFp, hpl]
        rw [hget]
        have hkey : mentionKey false m = "loc" := by
          simp [mentionKey, htag]
        refine ⟨?_, (mkTS_fields g "loc" m).1⟩
        simp only [Option.getD_some]
        exact List.mem_map_of_mem _ (List.mem_filter.2 ⟨hm, by simp [hkey]⟩)
      · intro k l hdl ts hts
        rw [dictGet_map_keys F hfkeys res' k] at hdl
        cases hf : res'.find? (fun p => p.1 = k) with
        | none => rw [hf] at hdl; cases hdl
        | some p =>
            rw [hf] at hdl
            have hl : l = (F p).2 := by
              cases hdl
              rfl
            have hpk : p.1 = k := by simpa using List.find?_some hf
            have hp2 : dictGet res' k = some p.2 := by
              unfold dictGet
              rw [hf]
              rfl
            have hdk := dictGet_loop_allowed g false mentions res' hloop k
            by_cases hkmem : k ∈ allowedTags false
            · rw [if_pos hkmem] at hdk
              rw [hp2] at hdk
              injection hdk with hp2v
              have hkcases : k = "org" ∨ k = "per" ∨ k = "loc" := by
                simpa [allowedTags] using hkmem
              rcases hkcases with rfl | rfl | rfl
              · -- organization collection: the nesting pass output
                have hFp : (F p).2 =
                    (findParentsPass ((dictGet res' "org").getD [] ++
                      (if (false : Bool) then (dictGet res' "locorg").getD []
                        else []))).take ((dictGet res' "org").getD []).length := by
                  rw [hF]
                  dsimp only
                  rw [if_pos hpk]
                rw [hl, hFp] at hts
                have hts' := List.mem_of_mem_take hts
                obtain ⟨ts0, hts0, htag, -⟩ := findParentsPass_mem _ _ hts'
                have : ts0 ∈ (dictGet res' "org").getD [] := by
                  simpa using hts0
                rw [hdorg] at this
                simp only [Option.getD_some] at this
                obtain ⟨m', -, rfl⟩ := List.mem_map.1 this
                rw [htag, (mkTS_fields g "org" m').1]
                decide
              · have hFp : F p = p := by
                  rw [hF]
                  dsimp only
                  rw [if_neg (by rw [hpk]; decide), if_neg (by rw [hpk]; simp)]
                rw [hl, hFp, hp2v] at hts
                obtain ⟨m', -, rfl⟩ := List.mem_map.1 hts
                rw [(mkTS_fields g "per" m').1]
                decide
              · have hFp : F p = p := by
                  rw [hF]
                  dsimp only
                  rw [if_neg (by rw [hpk]; decide), if_neg (by rw [hpk]; simp)]
                rw [hl, hFp, hp2v] at hts
                obtain ⟨m', -, rfl⟩ := List.mem_map.1 hts
                rw [(mkTS_fields g "loc" m').1]
                decide
            · rw [if_neg hkmem] at hdk
              rw [hp2] at hdk
              cases hdk

/-- C4 witness: a single alias-tagged mention lands in the location
collection of the concrete result, which has no alias key. -/
theorem claim_C4_witness :
    makeTokenSets (fun _ _ => "m") [{ id := 7, tag := "locorg", spans := [] }] false =
      .ok [("org", []), ("per", []),
        ("loc", [{ tokens := [], tag := "loc", marks := [], parent := none }])] ∧
    dictGet [("org", []), ("per", []),
        ("loc", [{ tokens := [], tag := "loc", marks := [], parent := none }])]
      "locorg" = none ∧
    mkTS (fun _ _ => "m") "loc" { id := 7, tag := "locorg", spans := [] } ∈
      (dictGet [("org", []), ("per", []),
        ("loc", [{ tokens := [], tag := "loc", marks := [], parent := none }])]
        "loc").getD [] :=
  ⟨rfl,
   (claim_C4 (fun _ _ => "m") [{ id := 7, tag := "locorg", spans := [] }]
      [("org", []), ("per", []),
        ("loc", [{ tokens := [], tag := "loc", marks := [], parent := none }])]
      rfl).1,
   ((claim_C4 (fun _ _ => "m") [{ id := 7, tag := "locorg", spans := [] }]
      [("org", []), ("per", []),
        ("loc", [{ tokens := [], tag := "loc", marks := [], parent := none }])]
      rfl).2.1 { id := 7, tag := "locorg", spans := [] }
      (List.mem_singleton.2 rfl) rfl).1⟩

/-- Full characterization of the category lookups of a successful
makeTokenSets: the organization (and enabled alias) collections are the
two halves of the nesting pass over the concatenated organization
TokenSets, every other allowed category holds exactly its mentions'
TokenSets untouched, and any other key is absent. -/
theorem makeTokenSets_ok_dictGet (g : String → String → String)
    (mentions : List Mention) (flag : Bool)
    (res : List (String × List TokenSet)) (k : String)
    (hok : makeTokenSets g mentions flag = .ok res) :
    dictGet res k =
      if k = "org" then
        some ((findParentsPass
          (((mentions.filter (fun m => mentionKey flag m = "org")).map
              (fun m => mkTS g "org" m)) ++
            (if flag then (mentions.filter
              (fun m => mentionKey flag m = "locorg")).map
              (fun m => mkTS g "locorg" m) else []))).take
          ((mentions.filter (fun m => mentionKey flag m = "org")).map
            (fun m => mkTS g "org" m)).length)
      else if k = "locorg" ∧ flag then
        some ((findParentsPass
          (((mentions.filter (fun m => mentionKey flag m = "org")).map
              (fun m => mkTS g "org" m)) ++
            (if flag then (mentions.filter
              (fun m => mentionKey flag m = "locorg")).map
              (fun m => mkTS g "locorg" m) else []))).drop
          ((mentions.filter (fun m => mentionKey flag m = "org")).map
            (fun m => mkTS g "org" m)).length)
      else if k ∈ allowedTags flag then
        some ((mentions.filter (fun m => mentionKey flag m = k)).map
          (fun m => mkTS g k m))
      else none := by
  cases hloop : mentionLoop g flag
      ((allowedTags flag).map (fun t => (t, ([] : List TokenSet)))) mentions with
  | error e => simp [makeTokenSets, hloop] at hok
  | ok res' =>
      have hshape := makeTokenSets_ok_shape g mentions flag res' hloop
      rw [hok] at hshape
      injection hshape with hres
      subst hres
      have horgmem : "org" ∈ allowedTags flag := by simp [allowedTags]
      have hdorg : dictGet res' "org" =
          some ((mentions.filter (fun m => mentionKey flag m = "org")).map
            (fun m => mkTS g "org" m)) := by
        have hd := dictGet_loop_allowed g flag mentions res' hloop "org"
        rwa [if_pos horgmem] at hd
      have horgs : (dictGet res' "org").getD [] =
          (mentions.filter (fun m => mentionKey flag m = "org")).map
            (fun m => mkTS g "org" m) := by
        rw [hdorg]
        rfl
      have hlocorgs : (if flag then (dictGet res' "locorg").getD [] else []) =
          (if flag then (mentions.filter
            (fun m => mentionKey flag m = "locorg")).map
            (fun m => mkTS g "locorg" m) else []) := by
        cases flag with
        | false => rfl
        | true =>
            have hd := dictGet_loop_allowed g true mentions res' hloop "locorg"
            rw [if_pos (by simp [allowedTags])] at hd
            rw [if_pos rfl, if_pos rfl, hd]
            rfl
      rw [dictGet_map_keys _ (by
        rintro ⟨pk, pv⟩
        dsimp only
        split_ifs <;> rfl) res' k]
      cases hf : res'.find? (fun p => p.1 = k) with
      | none =>
          have hdk := dictGet_loop_allowed g flag mentions res' hloop k
          have hnone : dictGet res' k = none := by
            unfold dictGet
            rw [hf]
            rfl
          rw [hnone] at hdk
          have hkmem : k ∉ allowedTags flag := by
            intro hmem
            rw [if_pos hmem] at hdk
            cases hdk
          have hk1 : ¬ k = "org" := fun h => hkmem (h ▸ horgmem)
          have hk2 : ¬ (k = "locorg" ∧ flag = true) := by
            rintro ⟨rfl, hfl⟩
            exact hkmem (by simp [allowedTags, hfl])
          rw [if_neg hk1, if_neg hk2, if_neg hkmem]
          rfl
      | some p =>
          obtain ⟨pk, pv⟩ := p
          have hpk : pk = k := by simpa using List.find?_some hf
          subst hpk
          have hp2 : dictGet res' pk = some pv := by
            unfold dictGet
            rw [hf]
            rfl
          have hdk := dictGet_loop_allowed g flag mentions res' hloop pk
          have hkmem : pk ∈ allowedTags flag := by
            by_contra hmem
            rw [if_neg hmem, hp2] at hdk
            cases hdk
          rw [if_pos hkmem, hp2] at hdk
          injection hdk with hp2v
          by_cases hk1 : pk = "org"
          · subst hk1
            simp [horgs, hlocorgs]
          · by_cases hk2 : pk = "locorg" ∧ flag = true
            · obtain ⟨rfl, hfl⟩ := hk2
              simp [hk1, hfl, horgs, hlocorgs, hp2, hp2v]
            · simp [hk1, hk2, hkmem, hp2v]

instance : Std.Antisymm (fun (x1 x2 : Int) => x1 ≤ x2) :=
  ⟨@fun _ _ h1 h2 => Int.le_antisymm h1 h2⟩

/-- A nonempty TokenSet whose tokens all belong to another TokenSet is
nested in it: every one of its tokens lies within the other's token run
in start-offset order. -/
theorem isNestedIn_of_subset (a b : TokenSet)
    (hne : a.tokens ≠ [])
    (hsub : ∀ t ∈ a.tokens, t ∈ b.tokens) :
    a.isNestedIn b = true := by
  obtain ⟨t0, ht0⟩ := List.exists_mem_of_ne_nil a.tokens hne
  have hbne : b.tokens ≠ [] := List.ne_nil_of_mem (hsub t0 ht0)
  have hbs : b.starts ≠ [] := by
    simp only [TokenSet.starts, ne_eq, List.map_eq_nil_iff]
    exact hbne
  cases hmin : b.starts.min? with
  | none => exact absurd (List.min?_eq_none_iff.1 hmin) hbs
  | some lo =>
      cases hmax : b.starts.max? with
      | none => exact absurd (List.max?_eq_none_iff.1 hmax) hbs
      | some hi =>
          have hlo := (List.min?_eq_some_iff (fun x => le_refl x)
            (fun x y => min_choice x y) (fun x y z => le_min_iff)).1 hmin
          have hhi := (List.max?_eq_some_iff (fun x => le_refl x)
            (fun x y => max_choice x y) (fun x y z => max_le_iff)).1 hmax
          simp only [TokenSet.isNestedIn, hmin, hmax, Bool.and_eq_true,
            List.all_eq_true]
          refine ⟨by simpa using hne, ?_⟩
          intro t ht
          have hts : t.start ∈ b.starts :=
            List.mem_map_of_mem Token.start (hsub t ht)
          simp [hlo.2 _ hts, hhi.2 _ hts]

/-- The nesting pass on exactly two TokenSets: each receives the other
as parent exactly when it is nested in it. -/
theorem findParentsPass_pair (a b : TokenSet) :
    findParentsPass [a, b] =
      [(if a.isNestedIn b then { a with parent := some 1 } else a),
       (if b.isNestedIn a then { b with parent := some 0 } else b)] := by
  by_cases hab : a.isNestedIn b <;> by_cases hba : b.isNestedIn a <;>
    simp [findParentsPass, List.mapIdx_cons, List.mapIdx_nil,
      findFirstParent, hab, hba]

/-- C5: the organization-nesting pass of makeTokenSets runs only over
the combined organization (plus enabled alias) TokenSets, so person and
location TokenSets always come out with their parent references unset;
within the pass, an organization TokenSet whose (nonempty) token set is
contained in another organization TokenSet's tokens — in particular a
strict subset by token order — gets that TokenSet recorded as its
parent, while two organization TokenSets neither of which encloses the
other (in particular two disjoint ones) both keep their parent
references unset. -/
theorem claim_C5 :
    (∀ (g : String → String → String) (mentions : List Mention) (flag : Bool)
        (res : List (String × List TokenSet)),
      makeTokenSets g mentions flag = .ok res →
      (∀ ts ∈ (dictGet res "per").getD [], ts.parent = none) ∧
      (∀ ts ∈ (dictGet res "loc").getD [], ts.parent = none)) ∧
    (∀ (g : String → String → String) (flag : Bool) (mA mB : Mention)
        (res : List (String × List TokenSet)),
      mA.tag = "org" → mB.tag = "org" →
      makeTokenSets g [mA, mB] flag = .ok res →
      (mkTS g "org" mA).tokens ≠ [] →
      (∀ t ∈ (mkTS g "org" mA).tokens, t ∈ (mkTS g "org" mB).tokens) →
      ∃ b2, dictGet res "org" =
        some [{ mkTS g "org" mA with parent := some 1 }, b2]) ∧
    (∀ (g : String → String → String) (flag : Bool) (mA mB : Mention)
        (res : List (String × List TokenSet)),
      mA.tag = "org" → mB.tag = "org" →
      makeTokenSets g [mA, mB] flag = .ok res →
      (mkTS g "org" mA).isNestedIn (mkTS g "org" mB) = false →
      (mkTS g "org" mB).isNestedIn (mkTS g "org" mA) = false →
      dictGet res "org" = some [mkTS g "org" mA, mkTS g "org" mB] ∧
      (mkTS g "org" mA).parent = none ∧
      (mkTS g "org" mB).parent = none) := by
  refine ⟨?_, ?_, ?_⟩
  · intro g mentions flag res hok
    constructor
    · have hd := makeTokenSets_ok_dictGet g mentions flag res "per" hok
      rw [if_neg (by decide), if_neg (by simp), if_pos (by simp [allowedTags])] at hd
      rw [hd]
      simp only [Option.getD_some]
      intro ts hts
      obtain ⟨m, -, rfl⟩ := List.mem_map.1 hts
      exact (mkTS_fields g "per" m).2.1
    · have hd := makeTokenSets_ok_dictGet g mentions flag res "loc" hok
      rw [if_neg (by decide), if_neg (by simp), if_pos (by simp [allowedTags])] at hd
      rw [hd]
      simp only [Option.getD_some]
      intro ts hts
      obtain ⟨m, -, rfl⟩ := List.mem_map.1 hts
      exact (mkTS_fields g "loc" m).2.1
  · intro g flag mA mB res hA hB hok hne hsub
    have hnest := isNestedIn_of_subset _ _ hne hsub
    have hkA : mentionKey flag mA = "org" := by simp [mentionKey, hA]
    have hkB : mentionKey flag mB = "org" := by simp [mentionKey, hB]
    have hd := makeTokenSets_ok_dictGet g [mA, mB] flag res "org" hok
    rw [if_pos rfl] at hd
    refine ⟨(if (mkTS g "org" mB).isNestedIn (mkTS g "org" mA) then
      { mkTS g "org" mB with parent := some 0 } else mkTS g "org" mB), ?_⟩
    rw [hd]
    simp [hkA, hkB, findParentsPass_pair, hnest, List.take_succ_cons]
  · intro g flag mA mB res hA hB hok hab hba
    have hkA : mentionKey flag mA = "org" := by simp [mentionKey, hA]
    have hkB : mentionKey flag mB = "org" := by simp [mentionKey, hB]
    have hd := makeTokenSets_ok_dictGet g [mA, mB] flag res "org" hok
    rw [if_pos rfl] at hd
    refine ⟨?_, (mkTS_fields g "org" mA).2.1, (mkTS_fields g "org" mB).2.1⟩
    rw [hd]
    simp [hkA, hkB, findParentsPass_pair, hab, hba, List.take_succ_cons]

/-- Fixture for the nesting witness: an organization mention nested
inside another organization mention. -/
def tokBank : Token := { id := 1, start := 0, length := 4, text := "Bank" }

def tokOf : Token := { id := 2, start := 5, length := 2, text := "of" }

def tokRossiya : Token := { id := 3, start := 8, length := 7, text := "Rossiya" }

def spanInner : Span :=
  { id := 2, tag := "org", start := 5, nchars := 2, token_start := 2,
    ntokens := 1, tokens := [tokOf], text := "of" }

def spanOuter : Span :=
  { id := 1, tag := "org", start := 0, nchars := 15, token_start := 1,
    ntokens := 3, tokens := [tokBank, tokOf, tokRossiya],
    text := "Bank of Rossiya" }

def mentionInner : Mention := { id := 1, tag := "org", spans := [spanInner] }

def mentionOuter : Mention := { id := 2, tag := "org", spans := [spanOuter] }

/-- The result of building token sets over the nesting fixture. -/
def resNested : List (String × List TokenSet) :=
  [("org",
    [{ tokens := [tokOf], tag := "org", marks := [(2, "m")], parent := some 1 },
     { tokens := [tokBank, tokOf, tokRossiya], tag := "org",
       marks := [(1, "m"), (2, "m"), (3, "m")], parent := none }]),
   ("per", []), ("loc", []), ("locorg", [])]

/-- C5 witness: in the concrete nesting fixture the inner organization
TokenSet receives the enclosing one as parent. -/
theorem claim_C5_witness :
    ((dictGet resNested "org").getD []).head? =
      some { mkTS (fun _ _ => "m") "org" mentionInner with parent := some 1 } := by
  obtain ⟨b2, hb⟩ := claim_C5.2.1 (fun _ _ => "m") true mentionInner mentionOuter
    resNested rfl rfl rfl (by decide) (by decide)
  rw [hb]
  rfl

/-- The claim's reading of the coreference segmentation, following the
spec's words: the file is cut into blocks separated by blank lines
(each line trimmed before the blank check); non-blank lines accumulate
into the current buffer; a blank line terminates a nonempty block; a
nonempty buffer left at end of file is the unterminated trailing
block. -/
def corefBlocksAux : List String → String → List String → List String × String
  | blocks, buffer, [] => (blocks, buffer)
  | blocks, buffer, l :: ls =>
      let line := pyStrip l
      if line.length = 0 then
        if buffer.length > 0 then corefBlocksAux (blocks ++ [buffer]) "" ls
        else corefBlocksAux blocks buffer ls
      else corefBlocksAux blocks (buffer ++ line ++ "\n") ls

/-- The terminated blocks and the trailing buffer of a coreference
file's content. -/
def corefBlocks (content : String) : List String × String :=
  corefBlocksAux [] "" (fileLines content)

/-- The block accumulator only grows at the front of the block list. -/
theorem corefBlocksAux_shift (ls : List String) :
    ∀ (blocks : List String) (buffer : String),
      corefBlocksAux blocks buffer ls =
        (blocks ++ (corefBlocksAux [] buffer ls).1,
          (corefBlocksAux [] buffer ls).2) := by
  induction ls with
  | nil => intro blocks buffer; simp [corefBlocksAux]
  | cons l ls ih =>
      intro blocks buffer
      simp only [corefBlocksAux]
      by_cases hline : (pyStrip l).length = 0
      · rw [if_pos hline, if_pos hline]
        by_cases hbuf : buffer.length > 0
        · rw [if_pos hbuf, if_pos hbuf, ih (blocks ++ [buffer]) "",
            ih ([] ++ [buffer]) ""]
          simp
        · rw [if_neg hbuf, if_neg hbuf]
          exact ih blocks buffer
      · rw [if_neg hline, if_neg hline]
        exact ih blocks (buffer ++ pyStrip l ++ "\n")

/-- A standard-mode construction that succeeds yields the standard
variant carrying exactly the flushed buffer. -/
theorem exceptMap_ok {α β : Type} (f : α → β) (x : Except String α) (e : β)
    (h : Except.map f x = .ok e) : ∃ v, x = .ok v ∧ e = f v := by
  cases x with
  | error er => simp [Except.map] at h
  | ok v =>
      simp only [Except.map] at h
      injection h with hv
      exact ⟨v, rfl, hv.symm⟩

theorem fromStandard_ok (buffer : String)
    (md : Option (List (Int × Mention))) (sd : Option (List (Int × Span)))
    (e : Entity) (h : Entity.fromStandard buffer md sd = .ok e) :
    e.isStandard = true ∧ e.buffer = buffer := by
  cases md with
  | none => simp [Entity.fromStandard] at h
  | some d =>
      simp only [Entity.fromStandard] at h
      split at h
      · cases h
      · obtain ⟨ms, -, rfl⟩ := exceptMap_ok _ _ _ h
        exact ⟨rfl, rfl⟩

/-- The block loop of loadCoreference produces, per terminated nonempty
block, exactly one standard-mode entity carrying that block's buffer,
leaving the trailing buffer untouched. -/
theorem readCorefLines_ok (md : Option (List (Int × Mention)))
    (sd : Option (List (Int × Span))) :
    ∀ (ls : List String) (es : List Entity) (buffer : String),
      (readCorefLines md sd (es, buffer) ls).2 = none →
      ∃ ents : List Entity,
        (readCorefLines md sd (es, buffer) ls).1.1 = es ++ ents ∧
        ents.map Entity.buffer = (corefBlocksAux [] buffer ls).1 ∧
        (∀ e ∈ ents, e.isStandard = true) ∧
        (readCorefLines md sd (es, buffer) ls).1.2 =
          (corefBlocksAux [] buffer ls).2 := by
  intro ls
  induction ls with
  | nil =>
      intro es buffer _
      exact ⟨[], by simp [readCorefLines, corefBlocksAux], by simp [corefBlocksAux],
        by simp, by simp [readCorefLines, corefBlocksAux]⟩
  | cons l ls ih =>
      intro es buffer herr
      simp only [readCorefLines, corefBlocksAux] at herr ⊢
      by_cases hline : (pyStrip l).length = 0
      · simp only [if_pos hline] at herr ⊢
        by_cases hbuf : buffer.length > 0
        · simp only [if_pos hbuf] at herr ⊢
          cases hfs : Entity.fromStandard buffer md sd with
          | error er =>
              rw [hfs] at herr
              cases herr
          | ok ent =>
              rw [hfs] at herr
              obtain ⟨ents', h1, h2, h3, h4⟩ := ih (es ++ [ent]) "" herr
              obtain ⟨hstd, hbufeq⟩ := fromStandard_ok buffer md sd ent hfs
              refine ⟨ent :: ents', ?_, ?_, ?_, ?_⟩
              · rw [h1]
                simp
              · rw [corefBlocksAux_shift ls ([] ++ [buffer]) ""]
                simp [h2, hbufeq]
              · intro e he
                rcases List.mem_cons.1 he with rfl | he
                · exact hstd
                · exact h3 e he
              · rw [h4, corefBlocksAux_shift ls ([] ++ [buffer]) ""]
        · simp only [if_neg hbuf] at herr ⊢
          exact ih es buffer herr
      · simp only [if_neg hline] at herr ⊢
        exact ih es (buffer ++ pyStrip l ++ "\n") herr

/-- C6: on a present coreference file that loads, every non-empty block
terminated by a blank line (after per-line trimming) becomes exactly
one standard-mode Entity carrying that block's buffer, in block order,
while a non-empty trailing buffer left at end of file becomes one
Entity of the distinct degenerate/test variant, which is not a
standard-mode Entity. -/
theorem claim_C6 (md : Option (List (Int × Mention)))
    (sd : Option (List (Int × Span))) (content : String) (es : List Entity)
    (hok : loadCorefContent md sd content = (es, none)) :
    ∃ ents : List Entity,
      es = ents ++ (if (corefBlocks content).2.length > 0
        then [Entity.fromTest (corefBlocks content).2] else []) ∧
      ents.map Entity.buffer = (corefBlocks content).1 ∧
      (∀ e ∈ ents, e.isStandard = true) ∧
      (Entity.fromTest (corefBlocks content).2).isStandard = false := by
  cases herr : (readCorefLines md sd ([], "") (fileLines content)).2 with
  | some er =>
      exfalso
      simp only [loadCorefContent, herr] at hok
      cases hok
  | none =>
      obtain ⟨ents, h1, h2, h3, h4⟩ :=
        readCorefLines_ok md sd (fileLines content) [] "" herr
      refine ⟨ents, ?_, h2, h3, rfl⟩
      simp only [loadCorefContent, herr] at hok
      by_cases htrail : (readCorefLines md sd ([], "") (fileLines content)).1.2.length > 0
      · rw [if_pos htrail] at hok
        have hes : (readCorefLines md sd ([], "") (fileLines content)).1.1 ++
            [Entity.fromTest
              (readCorefLines md sd ([], "") (fileLines content)).1.2] = es :=
          congrArg Prod.fst hok
        rw [corefBlocks, ← h4, if_pos htrail, ← hes, h1]
        simp
      · rw [if_neg htrail] at hok
        have hes : (readCorefLines md sd ([], "") (fileLines content)).1.1 = es :=
          congrArg Prod.fst hok
        rw [corefBlocks, ← h4, if_neg htrail, ← hes, h1]
        simp

/-- Fixture mention table for the coreference witness. -/
def mdCoref : Option (List (Int × Mention)) :=
  some [(5, { id := 5, tag := "per", spans := [] }),
        (6, { id := 6, tag := "per", spans := [] }),
        (7, { id := 7, tag := "per", spans := [] })]

/-- C6 witness: a file with two terminated blocks and a trailing
unterminated buffer loads, and the last produced entity is the
non-standard test variant. -/
theorem claim_C6_witness :
    loadCorefContent mdCoref (some []) "5\n\n6\n7\n\n8 9\n" =
      ((loadCorefContent mdCoref (some []) "5\n\n6\n7\n\n8 9\n").1, none) ∧
    ((loadCorefContent mdCoref (some [])
      "5\n\n6\n7\n\n8 9\n").1.getLast?).map Entity.isStandard = some false := by
  refine ⟨rfl, ?_⟩
  obtain ⟨ents, hes, hmap, hstd, htest⟩ :=
    claim_C6 mdCoref (some []) "5\n\n6\n7\n\n8 9\n"
      (loadCorefContent mdCoref (some []) "5\n\n6\n7\n\n8 9\n").1 rfl
  rw [if_pos (by decide)] at hes
  rw [hes, List.getLast?_concat]
  simp [htest]

/-- A token load with no error has built the token dictionary. -/
theorem loadTokensContent_ok (cfg : Config) (fn c : String) :
    (loadTokensContent cfg fn c).2 = none →
    (loadTokensContent cfg fn c).1.2.isSome = true := by
  unfold loadTokensContent
  cases h : (readTokenRecords cfg fn 0 (fileLines c)).2 <;> simp [h]

/-- A span load with no error has built the span dictionary. -/
theorem loadSpansContent_ok (cfg : Config)
    (tdict : Option (List (Int × Token))) (fn c : String) :
    (loadSpansContent cfg tdict fn c).2 = none →
    (loadSpansContent cfg tdict fn c).1.2.isSome = true := by
  unfold loadSpansContent
  cases h : (readSpanRecords cfg tdict fn 0 (fileLines c)).2 <;> simp [h]

/-- A mention load with no error has built the mention dictionary. -/
theorem loadMentionsContent_ok (cfg : Config)
    (sdict : Option (List (Int × Span))) (fn c : String) :
    (loadMentionsContent cfg sdict fn c).2 = none →
    (loadMentionsContent cfg sdict fn c).1.2.isSome = true := by
  unfold loadMentionsContent
  cases h : (readMentionRecords cfg sdict fn 0 (fileLines c)).2 <;> simp [h]

/-- loadTokens touches only the token attributes: it always sets the
token list, sets the dictionary exactly on success, and leaves every
other attribute as it was. -/
theorem loadTokensSt_frame (cfg : Config) (file : Option String)
    (fn : String) (st : StandardState) :
    (loadTokensSt cfg file fn st).1.spans = st.spans ∧
    (loadTokensSt cfg file fn st).1.spanDict = st.spanDict ∧
    (loadTokensSt cfg file fn st).1.mentions = st.mentions ∧
    (loadTokensSt cfg file fn st).1.mentionDict = st.mentionDict ∧
    (loadTokensSt cfg file fn st).1.entities = st.entities ∧
    (loadTokensSt cfg file fn st).1.text = st.text ∧
    (loadTokensSt cfg file fn st).1.name = st.name ∧
    (loadTokensSt cfg file fn st).1.tokens.isSome = true ∧
    ((loadTokensSt cfg file fn st).2 = none →
      (loadTokensSt cfg file fn st).1.tokenDict.isSome = true) := by
  cases file with
  | none => exact ⟨rfl, rfl, rfl, rfl, rfl, rfl, rfl, rfl, fun h => nomatch h⟩
  | some c =>
      exact ⟨rfl, rfl, rfl, rfl, rfl, rfl, rfl, rfl,
        fun h => loadTokensContent_ok cfg fn c h⟩

/-- loadSpans touches only the span attributes. -/
theorem loadSpansSt_frame (cfg : Config) (file : Option String)
    (fn : String) (st : StandardState) :
    (loadSpansSt cfg file fn st).1.tokens = st.tokens ∧
    (loadSpansSt cfg file fn st).1.tokenDict = st.tokenDict ∧
    (loadSpansSt cfg file fn st).1.mentions = st.mentions ∧
    (loadSpansSt cfg file fn st).1.mentionDict = st.mentionDict ∧
    (loadSpansSt cfg file fn st).1.entities = st.entities ∧
    (loadSpansSt cfg file fn st).1.text = st.text ∧
    (loadSpansSt cfg file fn st).1.name = st.name ∧
    (loadSpansSt cfg file fn st).1.spans.isSome = true ∧
    ((loadSpansSt cfg file fn st).2 = none →
      (loadSpansSt cfg file fn st).1.spanDict.isSome = true) := by
  cases file with
  | none => exact ⟨rfl, rfl, rfl, rfl, rfl, rfl, rfl, rfl, fun h => nomatch h⟩
  | some c =>
      exact ⟨rfl, rfl, rfl, rfl, rfl, rfl, rfl, rfl,
        fun h => loadSpansContent_ok cfg st.tokenDict fn c h⟩

/-- loadMentions touches only the mention attributes. -/
theorem loadMentionsSt_frame (cfg : Config) (file : Option String)
    (fn : String) (st : StandardState) :
    (loadMentionsSt cfg file fn st).1.tokens = st.tokens ∧
    (loadMentionsSt cfg file fn st).1.tokenDict = st.tokenDict ∧
    (loadMentionsSt cfg file fn st).1.spans = st.spans ∧
    (loadMentionsSt cfg file fn st).1.spanDict = st.spanDict ∧
    (loadMentionsSt cfg file fn st).1.entities = st.entities ∧
    (loadMentionsSt cfg file fn st).1.text = st.text ∧
    (loadMentionsSt cfg file fn st).1.name = st.name ∧
    (loadMentionsSt cfg file fn st).1.mentions.isSome = true ∧
    ((loadMentionsSt cfg file fn st).2 = none →
      (loadMentionsSt cfg file fn st).1.mentionDict.isSome = true) := by
  cases file with
  | none => exact ⟨rfl, rfl, rfl, rfl, rfl, rfl, rfl, rfl, fun h => nomatch h⟩
  | some c =>
      exact ⟨rfl, rfl, rfl, rfl, rfl, rfl, rfl, rfl,
        fun h => loadMentionsContent_ok cfg st.spanDict fn c h⟩

/-- loadCoreference touches only the entities attribute and always sets
it. -/
theorem loadCoreferenceSt_frame (file : Option String) (st : StandardState) :
    (loadCoreferenceSt file st).1.tokens = st.tokens ∧
    (loadCoreferenceSt file st).1.tokenDict = st.tokenDict ∧
    (loadCoreferenceSt file st).1.spans = st.spans ∧
    (loadCoreferenceSt file st).1.spanDict = st.spanDict ∧
    (loadCoreferenceSt file st).1.mentions = st.mentions ∧
    (loadCoreferenceSt file st).1.mentionDict = st.mentionDict ∧
    (loadCoreferenceSt file st).1.text = st.text ∧
    (loadCoreferenceSt file st).1.name = st.name ∧
    (loadCoreferenceSt file st).1.entities.isSome = true := by
  cases file with
  | none => exact ⟨rfl, rfl, rfl, rfl, rfl, rfl, rfl, rfl, rfl⟩
  | some c => exact ⟨rfl, rfl, rfl, rfl, rfl, rfl, rfl, rfl, rfl⟩

/-- loadText touches only the text attribute and sets it exactly on
success. -/
theorem loadTextSt_frame (file : Option String) (fn : String)
    (st : StandardState) :
    (loadTextSt file fn st).1.tokens = st.tokens ∧
    (loadTextSt file fn st).1.tokenDict = st.tokenDict ∧
    (loadTextSt file fn st).1.spans = st.spans ∧
    (loadTextSt file fn st).1.spanDict = st.spanDict ∧
    (loadTextSt file fn st).1.mentions = st.mentions ∧
    (loadTextSt file fn st).1.mentionDict = st.mentionDict ∧
    (loadTextSt file fn st).1.entities = st.entities ∧
    (loadTextSt file fn st).1.name = st.name ∧
    ((loadTextSt file fn st).2 = none →
      (loadTextSt file fn st).1.text.isSome = true) := by
  cases file with
  | none => exact ⟨rfl, rfl, rfl, rfl, rfl, rfl, rfl, rfl, fun h => nomatch h⟩
  | some c => exact ⟨rfl, rfl, rfl, rfl, rfl, rfl, rfl, rfl, fun _ => rfl⟩

/-- Field bookkeeping of the staged constructor: on a fully successful
run all stage attributes and the name are set; when some stage raised,
the name is unset and every attribute of a later stage can only be set
if the earlier stages completed (their lists and dictionaries are
set). -/
theorem initSteps_fields (cfg : Config) (fs : FileSet) (name path : String) :
    ((initSteps cfg fs name path).2 = none →
      (initSteps cfg fs name path).1.tokens.isSome = true ∧
      (initSteps cfg fs name path).1.tokenDict.isSome = true ∧
      (initSteps cfg fs name path).1.spans.isSome = true ∧
      (initSteps cfg fs name path).1.spanDict.isSome = true ∧
      (initSteps cfg fs name path).1.mentions.isSome = true ∧
      (initSteps cfg fs name path).1.mentionDict.isSome = true ∧
      (initSteps cfg fs name path).1.entities.isSome = true ∧
      (initSteps cfg fs name path).1.text.isSome = true ∧
      (initSteps cfg fs name path).1.name = some name) ∧
    ((initSteps cfg fs name path).2.isSome = true →
      (initSteps cfg fs name path).1.name = none ∧
      ((initSteps cfg fs name path).1.spans.isSome = true ∨
        (initSteps cfg fs name path).1.spanDict.isSome = true →
        (initSteps cfg fs name path).1.tokens.isSome = true ∧
        (initSteps cfg fs name path).1.tokenDict.isSome = true) ∧
      ((initSteps cfg fs name path).1.mentions.isSome = true ∨
        (initSteps cfg fs name path).1.mentionDict.isSome = true →
        (initSteps cfg fs name path).1.spans.isSome = true ∧
        (initSteps cfg fs name path).1.spanDict.isSome = true) ∧
      ((initSteps cfg fs name path).1.entities.isSome = true →
        (initSteps cfg fs name path).1.mentions.isSome = true ∧
        (initSteps cfg fs name path).1.mentionDict.isSome = true) ∧
      ((initSteps cfg fs name path).1.text.isSome = true →
        (initSteps cfg fs name path).1.entities.isSome = true)) := by
  simp only [initSteps]
  set full := path ++ "/" ++ name with hfull
  set r1 := loadTokensSt cfg fs.tokensFile (full ++ ".tokens") {} with hr1
  have F1 := loadTokensSt_frame cfg fs.tokensFile (full ++ ".tokens") {}
  rw [← hr1] at F1
  obtain ⟨e1sp, e1spd, e1m, e1md, e1e, e1t, e1n, s1tok, i1td⟩ := F1
  cases h1 : r1.2 with
  | some e =>
      simp only [h1]
      constructor
      · intro h
        cases h
      · intro _
        simp [e1sp, e1spd, e1m, e1md, e1e, e1t, e1n]
  | none =>
      simp only [h1]
      have htd1 := i1td h1
      set r2 := loadSpansSt cfg fs.spansFile (full ++ ".spans") r1.1 with hr2
      have F2 := loadSpansSt_frame cfg fs.spansFile (full ++ ".spans") r1.1
      rw [← hr2] at F2
      obtain ⟨e2tok, e2td, e2m, e2md, e2e, e2t, e2n, s2sp, i2sd⟩ := F2
      cases h2 : r2.2 with
      | some e =>
          simp only [h2]
          constructor
          · intro h
            cases h
          · intro _
            simp [e2tok, e2td, e2m, e2md, e2e, e2t, e2n, e1m, e1md, e1e, e1t,
              e1n, s1tok, htd1, s2sp]
      | none =>
          simp only [h2]
          have hsd2 := i2sd h2
          set r3 := loadMentionsSt cfg fs.objectsFile (full ++ ".objects") r2.1
            with hr3
          have F3 := loadMentionsSt_frame cfg fs.objectsFile
            (full ++ ".objects") r2.1
          rw [← hr3] at F3
          obtain ⟨e3tok, e3td, e3sp, e3sd, e3e, e3t, e3n, s3m, i3md⟩ := F3
          cases h3 : r3.2 with
          | some e =>
              simp only [h3]
              constructor
              · intro h
                cases h
              · intro _
                simp [e3tok, e3td, e3sp, e3sd, e3e, e3t, e3n, e2tok, e2td,
                  e2e, e2t, e2n, e1e, e1t, e1n, s1tok, htd1, s2sp, hsd2, s3m]
          | none =>
              simp only [h3]
              have hmd3 := i3md h3
              set r4 := loadCoreferenceSt fs.corefFile r3.1 with hr4
              have F4 := loadCoreferenceSt_frame fs.corefFile r3.1
              rw [← hr4] at F4
              obtain ⟨e4tok, e4td, e4sp, e4sd, e4m, e4md, e4t, e4n, s4e⟩ := F4
              cases h4 : r4.2 with
              | some e =>
                  simp only [h4]
                  constructor
                  · intro h
                    cases h
                  · intro _
                    simp [e4tok, e4td, e4sp, e4sd, e4m, e4md, e4t, e4n,
                      e3tok, e3td, e3sp, e3sd, e3t, e3n, e2tok, e2td, e2t,
                      e2n, e1t, e1n, s1tok, htd1, s2sp, hsd2, s3m, hmd3, s4e]
              | none =>
                  simp only [h4]
                  set r5 := loadTextSt fs.txtFile (full ++ ".txt") r4.1
                    with hr5
                  have F5 := loadTextSt_frame fs.txtFile (full ++ ".txt") r4.1
                  rw [← hr5] at F5
                  obtain ⟨e5tok, e5td, e5sp, e5sd, e5m, e5md, e5e, e5n, i5t⟩ := F5
                  cases h5 : r5.2 with
                  | some e =>
                      simp only [h5]
                      constructor
                      · intro h
                        cases h
                      · intro _
                        simp [e5tok, e5td, e5sp, e5sd, e5m, e5md, e5e, e5n,
                          e4tok, e4td, e4sp, e4sd, e4m, e4md, e4n, e3tok,
                          e3td, e3sp, e3sd, e3n, e2tok, e2td, e2n, e1n,
                          s1tok, htd1, s2sp, hsd2, s3m, hmd3, s4e]
                  | none =>
                      simp only [h5]
                      have ht5 := i5t h5
                      constructor
                      · intro _
                        simp [e5tok, e5td, e5sp, e5sd, e5m, e5md, e5e,
                          e4tok, e4td, e4sp, e4sd, e4m, e4md, e3tok, e3td,
                          e3sp, e3sd, e2tok, e2td, s1tok, htd1, s2sp, hsd2,
                          s3m, hmd3, s4e, ht5]
                      · intro h
                        cases h

/-- C1: the constructor's try block catches every stage error at the
top level: the caller always receives the attribute state the run
reached (never an exception), and in that state every attribute of a
later stage can only be present because the earlier stages ran to
completion — so all fields of the stages that completed before a
failure are still set. -/
theorem claim_C1 (cfg : Config) (fs : FileSet) (name path : String) :
    standardInit cfg fs name path = (initSteps cfg fs name path).1 ∧
    ((standardInit cfg fs name path).spans.isSome = true ∨
      (standardInit cfg fs name path).spanDict.isSome = true →
      (standardInit cfg fs name path).tokens.isSome = true ∧
      (standardInit cfg fs name path).tokenDict.isSome = true) ∧
    ((standardInit cfg fs name path).mentions.isSome = true ∨
      (standardInit cfg fs name path).mentionDict.isSome = true →
      (standardInit cfg fs name path).spans.isSome = true ∧
      (standardInit cfg fs name path).spanDict.isSome = true) ∧
    ((standardInit cfg fs name path).entities.isSome = true →
      (standardInit cfg fs name path).mentions.isSome = true ∧
      (standardInit cfg fs name path).mentionDict.isSome = true) ∧
    ((standardInit cfg fs name path).text.isSome = true →
      (standardInit cfg fs name path).entities.isSome = true) := by
  have H := initSteps_fields cfg fs name path
  cases herr : (initSteps cfg fs name path).2 with
  | none =>
      obtain ⟨htok, htd, hsp, hsd, hm, hmd, he, ht, -⟩ := H.1 herr
      exact ⟨rfl, fun _ => ⟨htok, htd⟩, fun _ => ⟨hsp, hsd⟩,
        fun _ => ⟨hm, hmd⟩, fun _ => he⟩
  | some e =>
      obtain ⟨-, i1, i2, i3, i4⟩ := H.2 (by rw [herr]; rfl)
      exact ⟨rfl, i1, i2, i3, i4⟩

/-- C10: the name attribute is assigned last, inside the try block:
whenever any stage raised, the resulting object has no name, and a
fully successful load carries exactly the document name. -/
theorem claim_C10 (cfg : Config) (fs : FileSet) (name path : String) :
    ((initSteps cfg fs name path).2.isSome = true →
      (standardInit cfg fs name path).name = none) ∧
    ((initSteps cfg fs name path).2 = none →
      (standardInit cfg fs name path).name = some name) := by
  have H := initSteps_fields cfg fs name path
  exact ⟨fun h => (H.2 h).1, fun h => (H.1 h).2.2.2.2.2.2.2.2⟩

/-- A complete single-document file set: three tokens, one span, one
mention, no coreference file, raw text. -/
def fsDoc : FileSet :=
  { tokensFile := some "1 0 4 Bank\n2 5 2 of\n3 8 7 Rossiya\n",
    spansFile := some "1 org 0 15 1 3 # 1 2 3 Bank of Rossiya\n",
    objectsFile := some "1 org 1 # comment words\n",
    corefFile := none,
    txtFile := some "Bank of Rossiya" }

/-- C1 witness: on a concrete fully loaded document the staging
implications are exercised with their hypotheses discharged. -/
theorem claim_C1_witness :
    (standardInit cfg0 fsDoc "doc" ".").entities.isSome = true ∧
    (standardInit cfg0 fsDoc "doc" ".").mentions.isSome = true ∧
    (standardInit cfg0 fsDoc "doc" ".").mentionDict.isSome = true :=
  ⟨by decide,
   ((claim_C1 cfg0 fsDoc "doc" ".").2.2.2.1 (by decide)).1,
   ((claim_C1 cfg0 fsDoc "doc" ".").2.2.2.1 (by decide)).2⟩

/-- C10 witness: a document whose token file cannot be opened loses the
whole load and has no name, while the complete fixture gets its name
assigned. -/
theorem claim_C10_witness :
    (initSteps cfg0 ({} : FileSet) "d" ".").2.isSome = true ∧
    (standardInit cfg0 ({} : FileSet) "d" ".").name = none ∧
    (initSteps cfg0 fsDoc "doc" ".").2 = none ∧
    (standardInit cfg0 fsDoc "doc" ".").name = some "doc" :=
  ⟨by decide, (claim_C10 cfg0 ({} : FileSet) "d" ".").1 (by decide),
   by decide, (claim_C10 cfg0 fsDoc "doc" ".").2 (by decide)⟩

end Dialent
